import Mathlib

/-! GoMonitor: agent registry and command lifecycle.

A shallow embedding of the server side of GoMonitor
(`server/server.go`, `server/client_manager.go`, `server/command_manager.go`,
`pkg/models/client_info.go`).

Modelling conventions.

* A Go `map[string]V` is an association list `GoMap V` with at most one entry
  per key; `GoMap.get` is `m[k]` (with the `exists` flag as `Option`),
  `GoMap.set` is `m[k] = v` and `GoMap.delete` is `delete(m, k)`.
* Pointers are replaced by values: storing through `*ClientInfo` is a `set`
  of the updated record, mutating an inner pending map is a `set` of the
  updated inner map.
* `uuid.New().String()` and `time.Now()` are inputs of the operation that
  calls them (`uuid`, `now`).
* A Go `error` is `Option String` (`none` is `nil`), carrying the message.
* A stream handle is an opaque number; the outcome of `stream.Send` is an
  input of the operation that calls it.
* Every handler runs as one atomic step (the server holds `s.mu` for the
  whole state mutation).
* An inner pending map is never nil in the code (it is always made by `make`),
  so the test `!exists || clientCmds == nil` is `GoMap.get` returning `none`.
-/

namespace GoMonitor

/-! ## Go maps -/

/-- A Go map with string keys, as an association list. -/
abbrev GoMap (V : Type) := List (String × V)

namespace GoMap

variable {V : Type}

/-- Map lookup `v, exists := m[k]`. -/
def get (k : String) : GoMap V → Option V
  | [] => none
  | (k', v) :: t => if k' = k then some v else get k t

/-- Builtin `delete(m, k)`. -/
def delete (k : String) (m : GoMap V) : GoMap V :=
  m.filter (fun p => decide (p.1 ≠ k))

/-- Assignment `m[k] = v`. -/
def set (k : String) (v : V) (m : GoMap V) : GoMap V :=
  (k, v) :: delete k m

/-- The keys of the map. -/
def keys (m : GoMap V) : List String := m.map Prod.fst

/-- The values of the map, as `for _, v := range m` visits them. -/
def values (m : GoMap V) : List V := m.map Prod.snd

end GoMap

/-! ## Data model (`proto`, `pkg/models`) -/

/-- Modelled from the spec: message `proto.CPUInfo` of the generated package
`proto`, which is not among the sources; only the field read by the server is kept. -/
structure CPUInfo where
  CpuUsagePercent : Int
  deriving DecidableEq, Repr

/-- Modelled from the spec: message `proto.MemoryInfo` of the generated package
`proto`; only the field read by the server is kept. -/
structure MemoryInfo where
  MemoryUsagePercent : Int
  deriving DecidableEq, Repr

/-- Modelled from the spec: message `proto.SystemInfo` of the generated package
`proto`; the sub-messages are pointers (`*proto.CPUInfo`, `*proto.MemoryInfo`, as
the collectors return them) and may be nil. -/
structure SystemInfo where
  CpuInfo : Option CPUInfo
  MemoryInfo : Option MemoryInfo
  deriving DecidableEq, Repr

/-- Modelled from the spec: message `proto.RegisterRequest` of the generated
package `proto`, with the fields the sources read. -/
structure RegisterRequest where
  Hostname : String
  IpAddress : String
  MacAddress : String
  OsInfo : String
  deriving DecidableEq, Repr

/-- Modelled from the spec: message `proto.Command` of the generated package
`proto`, with the fields the sources write. -/
structure Command where
  CommandId : String
  CommandType : String
  Content : String
  TimeoutSeconds : Int
  IssuedAt : Int
  deriving DecidableEq, Repr

/-- Modelled from the spec: message `proto.CommandResult` of the generated
package `proto`, with the fields the sources read and write. -/
structure CommandResult where
  ClientId : String
  CommandId : String
  Success : Bool
  Output : String
  Error : String
  ExecutionTimeMs : Int
  CompletedAt : Int
  deriving DecidableEq, Repr

/-- Record `models.ClientInfo`. -/
structure ClientInfo where
  ID : String
  Hostname : String
  IPAddress : String
  MACAddress : String
  OSInfo : String
  LastSeen : Int
  Info : Option SystemInfo
  deriving DecidableEq, Repr

/-- A server-side stream handle (`proto.SystemInfoService_ReceiveCommandsServer`). -/
abbrev Stream := Nat

/-- State of `CommandManager`: pending commands per client and the results. -/
structure CommandManager where
  pendingCmds : GoMap (GoMap Command)
  cmdResults : GoMap CommandResult
  deriving DecidableEq, Repr

/-- State of `Server` (the mutex is not part of the state). -/
structure Server where
  clients : GoMap ClientInfo
  clientStreams : GoMap Stream
  cmdManager : CommandManager
  deriving DecidableEq, Repr

/-- Constructor `NewServer`: all maps empty. -/
def NewServer : Server :=
  { clients := [], clientStreams := [], cmdManager := { pendingCmds := [], cmdResults := [] } }

/-! ## `ClientManager` -/

/-- Method `ClientManager.ValidateClient`. -/
def ValidateClient (s : Server) (clientID : String) : Option String :=
  match GoMap.get clientID s.clients with
  | none => some ("未知的客户端ID: " ++ clientID)
  | some _ => none

/-- Method `CommandManager.InitClientCommands`. -/
def InitClientCommands (s : Server) (clientID : String) : Server :=
  let pending1 := GoMap.set clientID [] s.cmdManager.pendingCmds
  { s with cmdManager := { s.cmdManager with pendingCmds := pending1 } }

/-- Method `ClientManager.RegisterClient`; `uuid` is the value of
`uuid.New().String()` and `now` that of `time.Now()`. -/
def RegisterClient (s : Server) (req : RegisterRequest) (uuid : String) (now : Int) :
    Server × String × Option String :=
  let clientID := uuid
  let client : ClientInfo :=
    { ID := clientID, Hostname := req.Hostname, IPAddress := req.IpAddress,
      MACAddress := req.MacAddress, OSInfo := req.OsInfo, LastSeen := now, Info := none }
  let s1 : Server := { s with clients := GoMap.set clientID client s.clients }
  (InitClientCommands s1 clientID, clientID, none)

/-- Method `ClientManager.UpdateClientInfo`. -/
def UpdateClientInfo (s : Server) (clientID : String) (info : Option SystemInfo) (now : Int) :
    Server × Option String :=
  match GoMap.get clientID s.clients with
  | none => (s, some ("未知的客户端ID: " ++ clientID))
  | some client =>
    let client1 : ClientInfo := { client with Info := info, LastSeen := now }
    ({ s with clients := GoMap.set clientID client1 s.clients }, none)

/-- Method `ClientManager.GetClientInfo`. -/
def GetClientInfo (s : Server) (clientID : String) : Option ClientInfo × Option String :=
  match GoMap.get clientID s.clients with
  | none => (none, some ("未知的客户端ID: " ++ clientID))
  | some client => (some client, none)

/-- Method `ClientManager.ListClients`. -/
def ListClients (s : Server) : List ClientInfo := GoMap.values s.clients

/-- Method `CommandManager.RemoveClientCommands`. -/
def RemoveClientCommands (s : Server) (clientID : String) : Server :=
  let pending1 := GoMap.delete clientID s.cmdManager.pendingCmds
  { s with cmdManager := { s.cmdManager with pendingCmds := pending1 } }

/-- Method `ClientManager.RemoveClient`. -/
def RemoveClient (s : Server) (clientID : String) : Server × Option String :=
  match GoMap.get clientID s.clients with
  | none => (s, some ("未知的客户端ID: " ++ clientID))
  | some _ =>
    let s1 : Server := { s with clients := GoMap.delete clientID s.clients }
    let s2 : Server := { s1 with clientStreams := GoMap.delete clientID s1.clientStreams }
    (RemoveClientCommands s2 clientID, none)

/-! ## `CommandManager` -/

/-- Method `CommandManager.SaveCommandResult`. -/
def SaveCommandResult (s : Server) (clientID cmdID : String) (result : CommandResult) :
    Server × Option String :=
  match GoMap.get clientID s.cmdManager.pendingCmds with
  | none => (s, some "客户端没有待处理的命令")
  | some clientCmds =>
    match GoMap.get cmdID clientCmds with
    | none => (s, some ("未知的命令ID: " ++ cmdID))
    | some _ =>
      let results1 := GoMap.set cmdID result s.cmdManager.cmdResults
      let pending1 := GoMap.set clientID (GoMap.delete cmdID clientCmds) s.cmdManager.pendingCmds
      ({ s with cmdManager := { pendingCmds := pending1, cmdResults := results1 } }, none)

/-- Method `CommandManager.GetPendingCommands`. -/
def GetPendingCommands (s : Server) (clientID : String) : List Command :=
  match GoMap.get clientID s.cmdManager.pendingCmds with
  | none => []
  | some clientCmds => GoMap.values clientCmds

/-- Method `CommandManager.GetCommandResult`. -/
def GetCommandResult (s : Server) (cmdID : String) : Option CommandResult × Option String :=
  match GoMap.get cmdID s.cmdManager.cmdResults with
  | none => (none, some ("未找到命令结果: " ++ cmdID))
  | some result => (some result, none)

/-- Method `CommandManager.CreateCommand`; `uuid` is the value `uuid.New().String()`
returns when it is reached and `now` that of `time.Now().Unix()`. -/
def CreateCommand (s : Server) (clientID cmdType content : String) (timeout : Int)
    (uuid : String) (now : Int) : Server × String × Option String :=
  match ValidateClient s clientID with
  | some err => (s, "", some err)
  | none =>
    let cmdID := uuid
    let cmd : Command :=
      { CommandId := cmdID, CommandType := cmdType, Content := content,
        TimeoutSeconds := timeout, IssuedAt := now }
    let clientCmds : GoMap Command :=
      match GoMap.get clientID s.cmdManager.pendingCmds with
      | none => []
      | some m => m
    let pending1 := GoMap.set clientID (GoMap.set cmdID cmd clientCmds) s.cmdManager.pendingCmds
    ({ s with cmdManager := { s.cmdManager with pendingCmds := pending1 } }, cmdID, none)

/-- Method `CommandManager.GetCommand`. -/
def GetCommand (s : Server) (clientID cmdID : String) : Option Command × Option String :=
  match GoMap.get clientID s.cmdManager.pendingCmds with
  | none => (none, some "客户端没有待处理的命令")
  | some clientCmds =>
    match GoMap.get cmdID clientCmds with
    | none => (none, some ("未知的命令ID: " ++ cmdID))
    | some cmd => (some cmd, none)

/-! ## `Server` handlers -/

/-- Modelled from the spec: message `proto.RegisterResponse` of the generated
package `proto`. -/
structure RegisterResponse where
  ClientId : String
  Success : Bool
  Message : String
  deriving DecidableEq, Repr

/-- Modelled from the spec: message `proto.CommandResultResponse` of the
generated package `proto`. -/
structure CommandResultResponse where
  Received : Bool
  Message : String
  deriving DecidableEq, Repr

/-- Handler `Server.Register`. -/
def Register (s : Server) (req : RegisterRequest) (uuid : String) (now : Int) :
    Server × RegisterResponse × Option String :=
  match RegisterClient s req uuid now with
  | (s1, _, some err) => (s1, { ClientId := "", Success := false, Message := err }, some err)
  | (s1, clientID, none) =>
    (s1, { ClientId := clientID, Success := true, Message := "注册成功" }, none)

/-- Handler `Server.ReceiveCommands`, up to the point where the stream is
registered and the pending commands are read; the third component is the list
of commands the handler then sends on the stream. The validation of the client
id and the registration of the stream are taken as one step. -/
def ReceiveCommands_open (s : Server) (clientID : String) (stream : Stream) :
    Server × Option String × List Command :=
  match ValidateClient s clientID with
  | some err => (s, some err, [])
  | none =>
    let s1 : Server := { s with clientStreams := GoMap.set clientID stream s.clientStreams }
    (s1, none, GetPendingCommands s1 clientID)

/-- Handler `Server.ReceiveCommands`, after `stream.Context().Done()`: the
handler of any stream opened for `clientID` deletes the entry of `clientID`,
whichever stream is registered there. -/
def ReceiveCommands_done (s : Server) (clientID : String) : Server :=
  { s with clientStreams := GoMap.delete clientID s.clientStreams }

/-- Handler `Server.ReportCommandResult`. -/
def ReportCommandResult (s : Server) (result : CommandResult) :
    Server × CommandResultResponse × Option String :=
  let clientID := result.ClientId
  let cmdID := result.CommandId
  match ValidateClient s clientID with
  | some err => (s, { Received := false, Message := err }, some err)
  | none =>
    match SaveCommandResult s clientID cmdID result with
    | (s1, some err) => (s1, { Received := false, Message := err }, some err)
    | (s1, none) => (s1, { Received := true, Message := "结果已接收" }, none)

/-- What `Server.SendCommandToClient` returns and does on the stream. -/
structure SendOutcome where
  cmdID : String
  err : Option String
  /-- The call `stream.Send(cmd)` made by the handler, if any. -/
  pushed : Option (Stream × Command)
  /-- Whether the failure of that call was logged. -/
  sendFailureLogged : Bool
  deriving DecidableEq, Repr

/-- Method `Server.SendCommandToClient`; `sendErr` is what `stream.Send`
returns if it is called. -/
def SendCommandToClient (s : Server) (clientID cmdType content : String) (timeout : Int)
    (uuid : String) (now : Int) (sendErr : Option String) : Server × SendOutcome :=
  match CreateCommand s clientID cmdType content timeout uuid now with
  | (s1, _, some err) =>
    (s1, { cmdID := "", err := some err, pushed := none, sendFailureLogged := false })
  | (s1, cmdID, none) =>
    match GoMap.get clientID s1.clientStreams with
    | some stream =>
      match GetCommand s1 clientID cmdID with
      | (_, some _) =>
        (s1, { cmdID := cmdID, err := none, pushed := none, sendFailureLogged := false })
      | (none, none) =>
        (s1, { cmdID := cmdID, err := none, pushed := none, sendFailureLogged := false })
      | (some cmd, none) =>
        (s1, { cmdID := cmdID, err := none, pushed := some (stream, cmd),
               sendFailureLogged := sendErr.isSome })
    | none => (s1, { cmdID := cmdID, err := none, pushed := none, sendFailureLogged := false })

/-- Method `Server.GetCommandResult`. -/
def Server.GetCommandResult (s : Server) (cmdID : String) :
    Option CommandResult × Option String :=
  GoMonitor.GetCommandResult s cmdID

/-! ## Runs of the server -/

/-- One call into the server, with the values of its inputs and of the
external calls it makes. -/
inductive Op where
  | register (req : RegisterRequest) (uuid : String) (now : Int)
  | updateClientInfo (clientID : String) (info : Option SystemInfo) (now : Int)
  | removeClient (clientID : String)
  | removeClientCommands (clientID : String)
  | createCommand (clientID cmdType content : String) (timeout : Int) (uuid : String) (now : Int)
  | sendCommandToClient (clientID cmdType content : String) (timeout : Int) (uuid : String)
      (now : Int) (sendErr : Option String)
  | saveCommandResult (clientID cmdID : String) (result : CommandResult)
  | reportCommandResult (result : CommandResult)
  | receiveCommandsOpen (clientID : String) (stream : Stream)
  | receiveCommandsDone (clientID : String)
  deriving DecidableEq, Repr

/-- The state after one call. -/
def exec (s : Server) : Op → Server
  | .register req uuid now => (Register s req uuid now).1
  | .updateClientInfo clientID info now => (UpdateClientInfo s clientID info now).1
  | .removeClient clientID => (RemoveClient s clientID).1
  | .removeClientCommands clientID => RemoveClientCommands s clientID
  | .createCommand clientID cmdType content timeout uuid now =>
    (CreateCommand s clientID cmdType content timeout uuid now).1
  | .sendCommandToClient clientID cmdType content timeout uuid now sendErr =>
    (SendCommandToClient s clientID cmdType content timeout uuid now sendErr).1
  | .saveCommandResult clientID cmdID result => (SaveCommandResult s clientID cmdID result).1
  | .reportCommandResult result => (ReportCommandResult s result).1
  | .receiveCommandsOpen clientID stream => (ReceiveCommands_open s clientID stream).1
  | .receiveCommandsDone clientID => ReceiveCommands_done s clientID

/-- The state after a sequence of calls. -/
def run (s : Server) (ops : List Op) : Server := ops.foldl exec s

/-- The identifier the call draws from `uuid.New()` in state `s`, if it reaches
that line: `RegisterClient` always does, `CreateCommand` only once the client
is validated. -/
def Op.drawn (s : Server) : Op → Option String
  | .register _ uuid _ => some uuid
  | .createCommand clientID _ _ _ uuid _ =>
    if ValidateClient s clientID = none then some uuid else none
  | .sendCommandToClient clientID _ _ _ uuid _ _ =>
    if ValidateClient s clientID = none then some uuid else none
  | _ => none

/-- The generator returns fresh identifiers along the run: every identifier
drawn differs from all those in `used` and from those drawn before it. -/
def freshRun (used : List String) (s : Server) : List Op → Bool
  | [] => true
  | op :: ops =>
    match op.drawn s with
    | none => freshRun used (exec s op) ops
    | some u => decide (u ∉ used) && freshRun (u :: used) (exec s op) ops

/-- Command `cmdID` is in the pending set of client `clientID`. -/
def isPending (s : Server) (clientID cmdID : String) : Bool :=
  match GoMap.get clientID s.cmdManager.pendingCmds with
  | none => false
  | some clientCmds => (GoMap.get cmdID clientCmds).isSome

/-- Command `cmdID` is a key of the result store. -/
def isResulted (s : Server) (cmdID : String) : Bool :=
  (GoMap.get cmdID s.cmdManager.cmdResults).isSome

/-- The arguments with which the call invokes `CommandManager.SaveCommandResult`,
if it does: directly, or from `ReportCommandResult` once the client is validated. -/
def Op.saveArgs (s : Server) : Op → Option (String × String × CommandResult)
  | .saveCommandResult clientID cmdID result => some (clientID, cmdID, result)
  | .reportCommandResult result =>
    if ValidateClient s result.ClientId = none then
      some (result.ClientId, result.CommandId, result)
    else none
  | _ => none

/-- The client ids returned by the `Register` calls of the run from `s` that
return no error, in call order. -/
def registeredIds (s : Server) : List Op → List String
  | [] => []
  | op :: ops =>
    (match op with
      | .register req uuid now =>
        if (Register s req uuid now).2.2 = none then [(Register s req uuid now).2.1.ClientId]
        else []
      | _ => []) ++ registeredIds (exec s op) ops

/-- Number of `RemoveClient` calls of the run from `s` that return no error. -/
def removedCount (s : Server) : List Op → Nat
  | [] => 0
  | op :: ops =>
    (match op with
      | .removeClient clientID => if (RemoveClient s clientID).2 = none then 1 else 0
      | _ => 0) + removedCount (exec s op) ops

/-! ## Invariants of runs -/

/-- The identifiers drawn so far after the run `ops` from `s`, given those
drawn before it. -/
def usedAfter (used : List String) (s : Server) : List Op → List String
  | [] => used
  | op :: ops =>
    match op.drawn s with
    | none => usedAfter used (exec s op) ops
    | some u => usedAfter (u :: used) (exec s op) ops

/-- What holds of a server state together with the identifiers drawn so far:
registered clients and pending sets belong to drawn ids, every pending or
resulted command id was drawn, a command is pending for at most one client and
never both pending and resulted, and the registry has one record per id. -/
structure Inv (used : List String) (s : Server) : Prop where
  clients_used : ∀ a, GoMap.get a s.clients ≠ none → a ∈ used
  pendkeys_used : ∀ a, GoMap.get a s.cmdManager.pendingCmds ≠ none → a ∈ used
  pending_used : ∀ a c, isPending s a c = true → c ∈ used
  results_used : ∀ c, isResulted s c = true → c ∈ used
  pending_unique : ∀ a b c, isPending s a c = true → isPending s b c = true → a = b
  disjoint : ∀ a c, isPending s a c = true → isResulted s c = false
  clients_nodup : (GoMap.keys s.clients).Nodup

/-! ## Telemetry handler -/

/-- Modelled from the spec: message `proto.SystemInfoResponse` of the generated
package `proto`. -/
structure SystemInfoResponse where
  Received : Bool
  Message : String
  deriving DecidableEq, Repr

/-- Handler `Server.SendSystemInfo`; `info` is `req.SystemInfo`. The second
component is `none` when the handler does not return: after the update it
reads `req.SystemInfo.CpuInfo.CpuUsagePercent` and
`req.SystemInfo.MemoryInfo.MemoryUsagePercent` through the pointers, which
faults on a nil `SystemInfo`, `CpuInfo` or `MemoryInfo`. The first component
is the state the handler leaves. -/
def SendSystemInfo (s : Server) (clientID : String) (info : Option SystemInfo) (now : Int) :
    Server × Option (SystemInfoResponse × Option String) :=
  match UpdateClientInfo s clientID info now with
  | (s1, some err) => (s1, some ({ Received := false, Message := err }, some err))
  | (s1, none) =>
    match info with
    | none => (s1, none)
    | some systemInfo =>
      match systemInfo.CpuInfo, systemInfo.MemoryInfo with
      | some _, some _ => (s1, some ({ Received := true, Message := "信息已接收" }, none))
      | _, _ => (s1, none)

/-- Well-formedness of the pending table: every inner map has one entry per
command id and stores each command under its own `CommandId`. -/
structure PendingWF (s : Server) : Prop where
  nodup : ∀ a m, GoMap.get a s.cmdManager.pendingCmds = some m → (GoMap.keys m).Nodup
  keyed : ∀ a m, GoMap.get a s.cmdManager.pendingCmds = some m → ∀ p ∈ m, p.2.CommandId = p.1

/-! ## Agent runtime (`client/client.go`, `client/command_executor.go`)

The clock is read in nanoseconds; the replies of the server and the outcomes of
the operating-system calls made by the handlers are inputs. -/

/-- State of `Client` that command execution uses. -/
structure Client where
  clientID : String
  cmdResults : GoMap CommandResult
  deriving DecidableEq, Repr

/-- What one call of the RPC `ReportCommandResult` gives the client: the error,
and the `Received` flag of the response. -/
structure ReportReply where
  err : Option String
  Received : Bool
  deriving DecidableEq, Repr

/-- The steps `Client.ReportCommandResult` takes, in order. -/
inductive ReportEvent where
  /-- The call `c.client.ReportCommandResult(ctx, result)` of iteration `i`. -/
  | rpc (i : Nat) (result : CommandResult)
  /-- The line logged when the report is accepted. -/
  | logSuccess
  /-- The line logged after a failed attempt, with its number `i+1`. -/
  | logFailure (attempt : Nat)
  /-- The call `time.Sleep(2 * time.Second)`. -/
  | sleep (seconds : Nat)
  /-- The line logged when the loop ends without success. -/
  | logGiveUp
  deriving DecidableEq, Repr

/-- The test `err == nil && resp.Received` on a reply. -/
def ReportReply.accepted (reply : ReportReply) : Bool :=
  decide (reply.err = none) && reply.Received

/-- The loop `for i := 0; i < 3; i++` of `Client.ReportCommandResult`, with
`remaining = 3 - i` iterations left; `rpc i` is the reply to the call of
iteration `i`, each of which sends `result`. -/
def Client.reportLoop (rpc : Nat → ReportReply) (result : CommandResult) :
    Nat → Nat → List ReportEvent
  | 0, _ => [.logGiveUp]
  | remaining + 1, i =>
    if (rpc i).accepted = true then [.rpc i result, .logSuccess]
    else [.rpc i result, .logFailure (i + 1), .sleep 2] ++
      Client.reportLoop rpc result remaining (i + 1)

/-- Method `Client.ReportCommandResult`. -/
def Client.ReportCommandResult (rpc : Nat → ReportReply) (result : CommandResult) :
    List ReportEvent :=
  Client.reportLoop rpc result 3 0

/-- Number of RPC attempts in a trace. -/
def attempts (events : List ReportEvent) : Nat :=
  (events.filter (fun e => match e with | .rpc _ _ => true | _ => false)).length

/-- The results sent to the server in a trace, each listed once. -/
def reportedResults (events : List ReportEvent) : List CommandResult :=
  (events.filterMap (fun e => match e with | .rpc _ result => some result | _ => none)).dedup

/-- Number of reports the server accepted in a trace. -/
def deliveries (events : List ReportEvent) : Nat :=
  (events.filter (fun e => match e with | .logSuccess => true | _ => false)).length

/-- Number of pauses in a trace. -/
def pauses (events : List ReportEvent) : Nat :=
  (events.filter (fun e => match e with | .sleep _ => true | _ => false)).length

/-- Outcomes of the operating-system calls made by the command handlers. -/
structure ExecEnv where
  /-- Output and error of `execCmd.CombinedOutput()` for a shell command with
  the given content, run under the given timeout in seconds. -/
  shell : String → Int → String × Option String
  /-- Output and error of the collector of `infoCollectors` for the info types
  `cpu`, `memory`, `disk`, `network` and `all`. -/
  collect : String → String × Option String

/-- Method `CommandExecutor.ExecuteShellCommand`. -/
def ExecuteShellCommand (env : ExecEnv) (cmd : Command) (result : CommandResult) :
    CommandResult :=
  match env.shell cmd.Content cmd.TimeoutSeconds with
  | (output, some err) => { result with Success := false, Error := err, Output := output }
  | (output, none) => { result with Success := true, Output := output }

/-- The table `infoCollectors` of `ExecuteCollectInfoCommand`. -/
def infoCollectors (env : ExecEnv) : GoMap (String × Option String) :=
  [("cpu", env.collect "cpu"), ("memory", env.collect "memory"), ("disk", env.collect "disk"),
   ("network", env.collect "network"), ("all", env.collect "all"),
   ("process", ("进程列表收集功能尚未实现", none))]

/-- Method `CommandExecutor.ExecuteCollectInfoCommand`. -/
def ExecuteCollectInfoCommand (env : ExecEnv) (cmd : Command) (result : CommandResult) :
    CommandResult :=
  let infoType := cmd.Content
  let collected : String × Option String :=
    match GoMap.get infoType (infoCollectors env) with
    | some outcome => outcome
    | none => ("", some ("未知的信息类型: " ++ infoType))
  match collected with
  | (_, some err) => { result with Success := false, Error := err }
  | (output, none) => { result with Success := true, Output := output }

/-- Method `CommandExecutor.ExecuteUpdateCommand`. -/
def ExecuteUpdateCommand (cmd : Command) (result : CommandResult) : CommandResult :=
  { result with Success := true, Output := "更新成功模拟\n版本: " ++ cmd.Content }

/-- The table `commandHandlers` of `ExecuteCommand`. -/
def commandHandlers (env : ExecEnv) : GoMap (Command → CommandResult → CommandResult) :=
  [("shell", ExecuteShellCommand env), ("collect_info", ExecuteCollectInfoCommand env),
   ("update", ExecuteUpdateCommand)]

/-- Difference `t.Sub(u)` of two clock readings as a `time.Duration`: an int64
count of nanoseconds, saturating at its bounds. -/
def durationSub (t u : Int) : Int :=
  if t - u > 2 ^ 63 - 1 then 2 ^ 63 - 1
  else if t - u < -(2 ^ 63) then -(2 ^ 63)
  else t - u

/-- Method `Duration.Milliseconds`: integer division, truncating. -/
def durationMilliseconds (d : Int) : Int := Int.tdiv d 1000000

/-- Method `Time.Unix`: whole seconds of a clock reading. -/
def unixSeconds (t : Int) : Int := t / 1000000000

/-- The four clock readings of one `ExecuteCommand` call, in nanoseconds. -/
structure ClockReadings where
  /-- Reading `startTime := time.Now()`. -/
  start : Int
  /-- Reading `time.Now()` for the initial `CompletedAt`. -/
  created : Int
  /-- Reading taken by `time.Since(startTime)` in the deferred function. -/
  since : Int
  /-- Reading `time.Now()` for the final `CompletedAt`. -/
  completed : Int
  deriving DecidableEq, Repr

/-- What one call of `ExecuteCommand` does: the client state it leaves, and the
steps taken by its call of `Client.ReportCommandResult`. -/
structure ExecOutcome where
  client : Client
  events : List ReportEvent
  deriving DecidableEq, Repr

/-- Method `CommandExecutor.ExecuteCommand`, with its deferred function. -/
def ExecuteCommand (env : ExecEnv) (clock : ClockReadings) (rpc : Nat → ReportReply)
    (client : Client) (cmd : Command) : ExecOutcome :=
  let result0 : CommandResult :=
    { ClientId := client.clientID, CommandId := cmd.CommandId, Success := false, Output := "",
      Error := "", ExecutionTimeMs := 0, CompletedAt := unixSeconds clock.created }
  let result1 : CommandResult :=
    match GoMap.get cmd.CommandType (commandHandlers env) with
    | some handler => handler cmd result0
    | none => { result0 with Success := false, Error := "未知的命令类型: " ++ cmd.CommandType }
  let elapsedTime := durationSub clock.since clock.start
  let result2 : CommandResult :=
    { result1 with ExecutionTimeMs := durationMilliseconds elapsedTime,
                   CompletedAt := unixSeconds clock.completed }
  { client := { client with cmdResults := GoMap.set cmd.CommandId result2 client.cmdResults },
    events := Client.ReportCommandResult rpc result2 }

/-! ## Sample runs

The scenario of the specification: two agents register, the first opens its
command stream and is sent a shell command, then reports its result. -/

/-- Registration request of the first sample agent. -/
def reqA : RegisterRequest :=
  { Hostname := "host-a", IpAddress := "10.0.0.1", MacAddress := "aa:bb", OsInfo := "linux" }

/-- Registration request of the second sample agent. -/
def reqB : RegisterRequest :=
  { Hostname := "host-b", IpAddress := "10.0.0.2", MacAddress := "cc:dd", OsInfo := "linux" }

/-- Two registrations, a stream for `A1`, and command `C1` dispatched to `A1`. -/
def opsDispatched : List Op :=
  [.register reqA "A1" 100, .register reqB "A2" 101, .receiveCommandsOpen "A1" 7,
   .sendCommandToClient "A1" "shell" "echo hi" 5 "C1" 102 none]

/-- The server after `opsDispatched`: `C1` is pending for `A1`. -/
def srvDispatched : Server := run NewServer opsDispatched

/-- The result agent `A1` reports for `C1`. -/
def resultC1 : CommandResult :=
  { ClientId := "A1", CommandId := "C1", Success := true, Output := "hi\n", Error := "",
    ExecutionTimeMs := 3, CompletedAt := 103 }

/-- The same result as reported by `A2`, which was not issued `C1`. -/
def resultC1byA2 : CommandResult := { resultC1 with ClientId := "A2" }

/-- The server after `A1` has reported `resultC1`. -/
def srvReported : Server := run srvDispatched [.reportCommandResult resultC1]

/-- The sample run followed by the report of `resultC1` by `A1`. -/
def opsReported : List Op := opsDispatched ++ [.reportCommandResult resultC1]

/-- A late, different result for `C1`. -/
def resultC1late : CommandResult :=
  { resultC1 with Success := false, Output := "", Error := "late" }

/-- Calls made after `A1` has reported `resultC1`: further reports for `C1` by
`A2` and by `A1`, a fresh command for `A1`, the removal of `A1`, and a new
registration. -/
def opsAfterReport : List Op :=
  [.reportCommandResult resultC1byA2, .reportCommandResult resultC1late,
   .saveCommandResult "A1" "C1" resultC1late,
   .sendCommandToClient "A1" "shell" "ls" 5 "C2" 104 none, .removeClient "A1",
   .register reqA "A3" 105]

/-- A single registration, of `A1`. -/
def opsRegistered : List Op := [.register reqA "A1" 100]

/-- The server after `A1` has registered and been issued command `C1`. -/
def srvCreated : Server :=
  (CreateCommand (run NewServer opsRegistered) "A1" "shell" "echo hi" 5 "C1" 102).1

/-- The whole sample run: registrations of `A1`, `A2` and `A3`, removal of `A1`. -/
def opsLifetime : List Op := opsReported ++ opsAfterReport

/-- A telemetry snapshot with both sub-records present. -/
def snapshotA : SystemInfo :=
  { CpuInfo := some { CpuUsagePercent := 12 }, MemoryInfo := some { MemoryUsagePercent := 40 } }

/-- The record of `A1` as registration stores it. -/
def clientA1 : ClientInfo :=
  { ID := "A1", Hostname := "host-a", IPAddress := "10.0.0.1", MACAddress := "aa:bb",
    OSInfo := "linux", LastSeen := 100, Info := none }

/-- The record of `A2` as registration stores it. -/
def clientA2 : ClientInfo :=
  { ID := "A2", Hostname := "host-b", IPAddress := "10.0.0.2", MACAddress := "cc:dd",
    OSInfo := "linux", LastSeen := 101, Info := none }

/-- The command `C1` as `CreateCommand` stores it in the sample run. -/
def commandC1 : Command :=
  { CommandId := "C1", CommandType := "shell", Content := "echo hi", TimeoutSeconds := 5,
    IssuedAt := 102 }

/-- A snapshot without its cpu sub-record. -/
def snapshotNoCpu : SystemInfo :=
  { CpuInfo := none, MemoryInfo := some { MemoryUsagePercent := 40 } }

/-- Agent `A1` registers, opens stream `1`, reconnects with stream `2` while
stream `1` is still open. -/
def opsReconnected : List Op :=
  [.register reqA "A1" 100, .receiveCommandsOpen "A1" 1, .receiveCommandsOpen "A1" 2]

/-- The displaced stream `1` of `A1` then terminates: its handler runs the code
after `stream.Context().Done()`. -/
def opsDisplacedDone : List Op := opsReconnected ++ [.receiveCommandsDone "A1"]

/-- A reply that accepts the report. -/
def replyAccepted : ReportReply := { err := none, Received := true }

/-- A failed call. -/
def replyFailed : ReportReply := { err := some "unavailable", Received := false }

/-- Replies of a server that accepts the third attempt only. -/
def rpcThirdAccepted : Nat → ReportReply := fun i => if i = 2 then replyAccepted else replyFailed

/-- Replies of a server that never accepts. -/
def rpcNeverAccepted : Nat → ReportReply := fun _ => replyFailed

/-- Handler outcomes in which the shell echoes the command and every collector
returns a fixed line. -/
def sampleEnv : ExecEnv :=
  { shell := fun content _ => (content, none), collect := fun _ => ("ok", none) }

/-- Clock readings of an execution that starts at 1 s and takes 2.5 s. -/
def sampleClock : ClockReadings :=
  { start := 1000000000, created := 1000000100, since := 3500000000, completed := 3500000200 }

/-- The agent `A1` before it has executed anything. -/
def agentA1 : Client := { clientID := "A1", cmdResults := [] }

/-- A command of a kind the agent does not know, with a negative timeout. -/
def commandReboot : Command :=
  { CommandId := "C7", CommandType := "reboot", Content := "now", TimeoutSeconds := -1,
    IssuedAt := 0 }

/-- Handler outcomes in which a shell command run under a timeout that is not
positive is cancelled at once. -/
def timeoutEnv : ExecEnv :=
  { shell := fun content timeout =>
      if timeout ≤ 0 then ("", some "context deadline exceeded") else (content, none),
    collect := fun _ => ("ok", none) }

/-- A shell command with a zero timeout. -/
def commandNoTime : Command :=
  { CommandId := "C8", CommandType := "shell", Content := "echo hi", TimeoutSeconds := 0,
    IssuedAt := 0 }

/-- The result of `commandNoTime` under `timeoutEnv` and `sampleClock`. -/
def resultNoTime : CommandResult :=
  { ClientId := "A1", CommandId := "C8", Success := false, Output := "",
    Error := "context deadline exceeded", ExecutionTimeMs := 2500, CompletedAt := 3 }

/-- Two registrations that draw the same identifier, with a command created for
the first in between. -/
def opsRepeatedId : List Op :=
  [.register reqA "A1" 100, .createCommand "A1" "shell" "echo hi" 5 "C1" 102,
   .register reqB "A1" 103]

/-! ## Facts about Go maps -/

namespace GoMap

variable {V : Type}

theorem get_delete_self (k : String) (m : GoMap V) : get k (delete k m) = none := by
  induction m with
  | nil => rfl
  | cons p t ih =>
    obtain ⟨k', v⟩ := p
    by_cases h : k' = k
    · simpa [delete, List.filter_cons, h] using ih
    · simpa [delete, List.filter_cons, h, get] using ih

theorem get_delete_ne {k k' : String} (h : k' ≠ k) (m : GoMap V) :
    get k' (delete k m) = get k' m := by
  induction m with
  | nil => rfl
  | cons p t ih =>
    obtain ⟨k₀, v⟩ := p
    have ih' : get k' (List.filter (fun p => !decide (p.1 = k)) t) = get k' t := by
      simpa [delete] using ih
    by_cases h₀ : k₀ = k
    · subst h₀
      have h₁ : ¬ k₀ = k' := fun e => h e.symm
      simp [delete, List.filter_cons, get, h₁, ih']
    · by_cases h₁ : k₀ = k'
      · subst h₁
        simp [delete, List.filter_cons, h₀, get]
      · simp [delete, List.filter_cons, h₀, get, h₁, ih']

theorem get_set_self (k : String) (v : V) (m : GoMap V) : get k (set k v m) = some v := by
  simp [set, get]

theorem get_set_ne {k k' : String} (h : k' ≠ k) (v : V) (m : GoMap V) :
    get k' (set k v m) = get k' m := by
  have h₁ : ¬ k = k' := fun e => h e.symm
  simp [set, get, h₁, get_delete_ne h]

theorem get_eq_none_iff (k : String) (m : GoMap V) : get k m = none ↔ k ∉ keys m := by
  induction m with
  | nil => simp [get, keys]
  | cons p t ih =>
    obtain ⟨k', v⟩ := p
    by_cases h : k' = k
    · simp [get, keys, h]
    · have h' : ¬ k = k' := fun e => h e.symm
      simpa [get, keys, h, h'] using ih

theorem mem_of_get {k : String} {v : V} {m : GoMap V} (h : get k m = some v) : (k, v) ∈ m := by
  induction m with
  | nil => simp [get] at h
  | cons p t ih =>
    obtain ⟨k', v'⟩ := p
    by_cases h' : k' = k
    · simp [get, h'] at h
      simp [h', h]
    · simp [get, h'] at h
      exact List.mem_cons_of_mem _ (ih h)

end GoMap

/-! ## Single operations -/

theorem ValidateClient_of_none {s : Server} {clientID : String}
    (h : GoMap.get clientID s.clients = none) :
    ValidateClient s clientID = some ("未知的客户端ID: " ++ clientID) := by
  simp [ValidateClient, h]

theorem ValidateClient_of_some {s : Server} {clientID : String} {c : ClientInfo}
    (h : GoMap.get clientID s.clients = some c) : ValidateClient s clientID = none := by
  simp [ValidateClient, h]

theorem ValidateClient_eq_none_iff (s : Server) (clientID : String) :
    ValidateClient s clientID = none ↔ GoMap.get clientID s.clients ≠ none := by
  unfold ValidateClient
  cases GoMap.get clientID s.clients <;> simp

/-- C1: on a client id that is not registered, `CreateCommand` and
`SendCommandToClient` return the empty command id with an error, attempt no
push, and leave the whole server state (pending commands, results, registry,
stream handles) as it was. -/
theorem CreateCommand_unknown_client (s : Server) (clientID cmdType content : String)
    (timeout : Int) (uuid : String) (now : Int) (sendErr : Option String)
    (h : GoMap.get clientID s.clients = none) :
    CreateCommand s clientID cmdType content timeout uuid now
        = (s, "", some ("未知的客户端ID: " ++ clientID)) ∧
      SendCommandToClient s clientID cmdType content timeout uuid now sendErr
        = (s, { cmdID := "", err := some ("未知的客户端ID: " ++ clientID), pushed := none,
                sendFailureLogged := false }) := by
  have hc : CreateCommand s clientID cmdType content timeout uuid now
      = (s, "", some ("未知的客户端ID: " ++ clientID)) := by
    simp [CreateCommand, ValidateClient_of_none h]
  exact ⟨hc, by simp [SendCommandToClient, hc]⟩

/-- Witness for C1: the scenario `Dispatch("ZZZ", "shell", "whoami", 5)` on the
empty server. -/
theorem CreateCommand_unknown_client_witness :
    GoMap.get "ZZZ" NewServer.clients = none ∧
      (CreateCommand NewServer "ZZZ" "shell" "whoami" 5 "C9" 0
          = (NewServer, "", some ("未知的客户端ID: " ++ "ZZZ")) ∧
        SendCommandToClient NewServer "ZZZ" "shell" "whoami" 5 "C9" 0 none
          = (NewServer, { cmdID := "", err := some ("未知的客户端ID: " ++ "ZZZ"), pushed := none,
                          sendFailureLogged := false })) :=
  ⟨by decide, CreateCommand_unknown_client NewServer "ZZZ" "shell" "whoami" 5 "C9" 0 none
    (by decide)⟩

theorem SaveCommandResult_not_pending {s : Server} {clientID cmdID : String}
    (result : CommandResult) (h : isPending s clientID cmdID = false) :
    ∃ err, SaveCommandResult s clientID cmdID result = (s, some err) := by
  unfold isPending at h
  cases hp : GoMap.get clientID s.cmdManager.pendingCmds with
  | none => exact ⟨"客户端没有待处理的命令", by simp [SaveCommandResult, hp]⟩
  | some clientCmds =>
    rw [hp] at h
    cases hc : GoMap.get cmdID clientCmds with
    | none => exact ⟨"未知的命令ID: " ++ cmdID, by simp [SaveCommandResult, hp, hc]⟩
    | some cmd => simp [hc] at h

/-- C2: when command `cmdID` is not in the pending set of `clientID`,
`SaveCommandResult` returns an error and `ReportCommandResult` answers
`Received = false` with an error, and both leave the server state (result
store and every pending set included) as it was. -/
theorem SaveCommandResult_rejects_not_pending (s : Server) (clientID cmdID : String)
    (result : CommandResult) (h : isPending s clientID cmdID = false) :
    (∃ err, SaveCommandResult s clientID cmdID result = (s, some err)) ∧
      (result.ClientId = clientID → result.CommandId = cmdID →
        ∃ err, ReportCommandResult s result
          = (s, { Received := false, Message := err }, some err)) := by
  refine ⟨SaveCommandResult_not_pending result h, ?_⟩
  intro h1 h2
  subst h1 h2
  cases hv : ValidateClient s result.ClientId with
  | some err => exact ⟨err, by simp [ReportCommandResult, hv]⟩
  | none =>
    obtain ⟨err, he⟩ := SaveCommandResult_not_pending result h
    exact ⟨err, by simp [ReportCommandResult, hv, he]⟩

/-- Witness for C2: `C1` is pending for `A1` only, and a report for it by
`A2` is rejected. -/
theorem SaveCommandResult_rejects_not_pending_witness :
    isPending srvDispatched "A1" "C1" = true ∧ isPending srvDispatched "A2" "C1" = false ∧
      ((∃ err, SaveCommandResult srvDispatched "A2" "C1" resultC1byA2
          = (srvDispatched, some err)) ∧
        (resultC1byA2.ClientId = "A2" → resultC1byA2.CommandId = "C1" →
          ∃ err, ReportCommandResult srvDispatched resultC1byA2
            = (srvDispatched, { Received := false, Message := err }, some err))) :=
  ⟨by decide, by decide,
    SaveCommandResult_rejects_not_pending srvDispatched "A2" "C1" resultC1byA2 (by decide)⟩

theorem isPending_iff (s : Server) (clientID cmdID : String) :
    isPending s clientID cmdID = true ↔
      ∃ m cmd, GoMap.get clientID s.cmdManager.pendingCmds = some m ∧
        GoMap.get cmdID m = some cmd := by
  unfold isPending
  cases hp : GoMap.get clientID s.cmdManager.pendingCmds with
  | none => simp
  | some m =>
    cases hc : GoMap.get cmdID m with
    | none => simp [hc]
    | some cmd => simp [hc]

theorem SaveCommandResult_of_pending {s : Server} {clientID cmdID : String} {m : GoMap Command}
    {cmd : Command} (result : CommandResult)
    (hp : GoMap.get clientID s.cmdManager.pendingCmds = some m)
    (hc : GoMap.get cmdID m = some cmd) :
    SaveCommandResult s clientID cmdID result =
      ({ s with cmdManager :=
          { pendingCmds := GoMap.set clientID (GoMap.delete cmdID m) s.cmdManager.pendingCmds,
            cmdResults := GoMap.set cmdID result s.cmdManager.cmdResults } }, none) := by
  simp [SaveCommandResult, hp, hc]

theorem GoMap.values_delete_of_keyed (cmdID : String) (m : GoMap Command)
    (hk : ∀ p ∈ m, p.2.CommandId = p.1) :
    GoMap.values (GoMap.delete cmdID m) =
      (GoMap.values m).filter (fun cmd => decide (cmd.CommandId ≠ cmdID)) := by
  induction m with
  | nil => rfl
  | cons p t ih =>
    have hp : p.2.CommandId = p.1 := hk p (List.mem_cons_self _ _)
    have ht : ∀ q ∈ t, q.2.CommandId = q.1 := fun q hq => hk q (List.mem_cons_of_mem _ hq)
    have ih' := ih ht
    simp only [GoMap.values, GoMap.delete] at ih' ⊢
    by_cases h : p.1 = cmdID
    · simp only [List.filter_cons, List.map_cons, h, hp]
      simpa using ih'
    · have ih2 : List.map Prod.snd (List.filter (fun p => !decide (p.1 = cmdID)) t) =
          List.filter (fun cmd => !decide (cmd.CommandId = cmdID)) (List.map Prod.snd t) := by
        simpa using ih'
      simp [List.filter_cons, h, hp, ih2]

/-- C3: when `cmdID` is pending for `clientID` (whose pending entries are keyed
by their own command id), `SaveCommandResult` succeeds; afterwards
`GetCommandResult cmdID` returns exactly the saved result, the pending
commands of `clientID` are the former ones without `cmdID`, and every other
pending entry, every other stored result, the registry and the stream handles
are unchanged. -/
theorem SaveCommandResult_pending (s : Server) (clientID cmdID : String) (result : CommandResult)
    (hp : isPending s clientID cmdID = true)
    (hk : ∀ m, GoMap.get clientID s.cmdManager.pendingCmds = some m →
      ∀ p ∈ m, p.2.CommandId = p.1) :
    ∃ s', SaveCommandResult s clientID cmdID result = (s', none) ∧
      GetCommandResult s' cmdID = (some result, none) ∧
      isPending s' clientID cmdID = false ∧
      (∀ cmd ∈ GetPendingCommands s' clientID, cmd.CommandId ≠ cmdID) ∧
      GetPendingCommands s' clientID =
        (GetPendingCommands s clientID).filter (fun cmd => decide (cmd.CommandId ≠ cmdID)) ∧
      (∀ a c, ¬ (a = clientID ∧ c = cmdID) → GetCommand s' a c = GetCommand s a c) ∧
      (∀ a, a ≠ clientID → GetPendingCommands s' a = GetPendingCommands s a) ∧
      (∀ c, c ≠ cmdID → GetCommandResult s' c = GetCommandResult s c) ∧
      s'.clients = s.clients ∧ s'.clientStreams = s.clientStreams := by
  obtain ⟨m, cmd, hm, hc⟩ := (isPending_iff s clientID cmdID).1 hp
  refine ⟨_, SaveCommandResult_of_pending result hm hc, ?_, ?_, ?_, ?_, ?_, ?_, ?_, rfl, rfl⟩
  · simp [GetCommandResult, GoMap.get_set_self]
  · simp [isPending, GoMap.get_set_self, GoMap.get_delete_self]
  · intro c hcmem
    simp only [GetPendingCommands, GoMap.get_set_self] at hcmem
    rw [GoMap.values_delete_of_keyed cmdID m (hk m hm)] at hcmem
    simpa using (List.mem_filter.1 hcmem).2
  · simp only [GetPendingCommands, GoMap.get_set_self, hm]
    exact GoMap.values_delete_of_keyed cmdID m (hk m hm)
  · intro a c hac
    by_cases ha : a = clientID
    · subst ha
      have hne : c ≠ cmdID := fun e => hac ⟨rfl, e⟩
      simp [GetCommand, GoMap.get_set_self, hm, GoMap.get_delete_ne hne]
    · simp [GetCommand, GoMap.get_set_ne ha]
  · intro a ha
    simp [GetPendingCommands, GoMap.get_set_ne ha]
  · intro c hne
    simp [GetCommandResult, GoMap.get_set_ne hne]

theorem srvDispatched_pending_A1 :
    GoMap.get "A1" srvDispatched.cmdManager.pendingCmds =
      some [("C1", { CommandId := "C1", CommandType := "shell", Content := "echo hi",
                     TimeoutSeconds := 5, IssuedAt := 102 })] := by
  decide

/-- Witness for C3: `A1` reports the result of `C1`, which is pending for it. -/
theorem SaveCommandResult_pending_witness :
    isPending srvDispatched "A1" "C1" = true ∧
      ∃ s', SaveCommandResult srvDispatched "A1" "C1" resultC1 = (s', none) ∧
        GetCommandResult s' "C1" = (some resultC1, none) ∧
        isPending s' "A1" "C1" = false ∧
        (∀ cmd ∈ GetPendingCommands s' "A1", cmd.CommandId ≠ "C1") := by
  refine ⟨by decide, ?_⟩
  obtain ⟨s', h1, h2, h3, h4, _⟩ :=
    SaveCommandResult_pending srvDispatched "A1" "C1" resultC1 (by decide)
      (by
        intro m hm p hp
        rw [srvDispatched_pending_A1] at hm
        cases hm
        simp only [List.mem_singleton] at hp
        subst hp
        rfl)
  exact ⟨s', h1, h2, h3, h4⟩

/-- C8: `RemoveClient` on a registered id returns no error and leaves no
record, no pending-command entry and no stream handle for that id, while the
entries of every other client and the result store are unchanged; on an
unregistered id it returns an error and the state is unchanged. -/
theorem RemoveClient_spec (s : Server) (clientID : String) :
    (GoMap.get clientID s.clients ≠ none →
      ∃ s', RemoveClient s clientID = (s', none) ∧
        GoMap.get clientID s'.clients = none ∧
        GoMap.get clientID s'.cmdManager.pendingCmds = none ∧
        GoMap.get clientID s'.clientStreams = none ∧
        (∀ a, a ≠ clientID →
          GoMap.get a s'.clients = GoMap.get a s.clients ∧
          GoMap.get a s'.cmdManager.pendingCmds = GoMap.get a s.cmdManager.pendingCmds ∧
          GoMap.get a s'.clientStreams = GoMap.get a s.clientStreams) ∧
        s'.cmdManager.cmdResults = s.cmdManager.cmdResults) ∧
    (GoMap.get clientID s.clients = none →
      RemoveClient s clientID = (s, some ("未知的客户端ID: " ++ clientID))) := by
  constructor
  · intro h
    cases hc : GoMap.get clientID s.clients with
    | none => exact absurd hc h
    | some c =>
      refine ⟨(RemoveClient s clientID).1, by simp [RemoveClient, hc], ?_, ?_, ?_, ?_, ?_⟩
      · simp [RemoveClient, hc, RemoveClientCommands, GoMap.get_delete_self]
      · simp [RemoveClient, hc, RemoveClientCommands, GoMap.get_delete_self]
      · simp [RemoveClient, hc, RemoveClientCommands, GoMap.get_delete_self]
      · intro a ha
        simp [RemoveClient, hc, RemoveClientCommands, GoMap.get_delete_ne ha]
      · simp [RemoveClient, hc, RemoveClientCommands]
  · intro h
    simp [RemoveClient, h]

/-- Witness for C8: removing `A1` (registered, with a stream and a pending
command) and removing the unknown id `ZZZ`. -/
theorem RemoveClient_spec_witness :
    GoMap.get "A1" srvDispatched.clients ≠ none ∧
      GoMap.get "ZZZ" srvDispatched.clients = none ∧
      (∃ s', RemoveClient srvDispatched "A1" = (s', none) ∧
        GoMap.get "A1" s'.clients = none ∧
        GoMap.get "A1" s'.cmdManager.pendingCmds = none ∧
        GoMap.get "A1" s'.clientStreams = none) ∧
      RemoveClient srvDispatched "ZZZ" = (srvDispatched, some ("未知的客户端ID: " ++ "ZZZ")) := by
  refine ⟨by decide, by decide, ?_, (RemoveClient_spec srvDispatched "ZZZ").2 (by decide)⟩
  obtain ⟨s', h1, h2, h3, h4, _⟩ := (RemoveClient_spec srvDispatched "A1").1 (by decide)
  exact ⟨s', h1, h2, h3, h4⟩

/-- C9: for every state and request `RegisterClient` (and the `Register`
handler) returns a nil error and the drawn id; the registry then maps that id
to a record with exactly the request's hostname, ip, mac and OS and no
snapshot, and the pending set of that id exists and is empty. Nothing in the
state is consulted, so no existing hostname or ip can make it fail. -/
theorem RegisterClient_spec (s : Server) (req : RegisterRequest) (uuid : String) (now : Int) :
    ∃ s', RegisterClient s req uuid now = (s', uuid, none) ∧
      Register s req uuid now
        = (s', { ClientId := uuid, Success := true, Message := "注册成功" }, none) ∧
      GoMap.get uuid s'.clients =
        some { ID := uuid, Hostname := req.Hostname, IPAddress := req.IpAddress,
               MACAddress := req.MacAddress, OSInfo := req.OsInfo, LastSeen := now,
               Info := none } ∧
      GoMap.get uuid s'.cmdManager.pendingCmds = some [] ∧
      GetPendingCommands s' uuid = [] := by
  refine ⟨_, rfl, ?_, ?_, ?_, ?_⟩
  · simp [Register, RegisterClient]
  · simp [InitClientCommands, GoMap.get_set_self]
  · simp [InitClientCommands, GoMap.get_set_self]
  · simp [GetPendingCommands, InitClientCommands, GoMap.get_set_self, GoMap.values]

/-! ## Effect of each operation on the observations -/

theorem GoMap.get_nil {V : Type} (k : String) : GoMap.get k ([] : GoMap V) = none := rfl

theorem isPending_RegisterClient (s : Server) (req : RegisterRequest) (u : String) (now : Int)
    (a c : String) :
    isPending (RegisterClient s req u now).1 a c = (if a = u then false else isPending s a c) := by
  by_cases h : a = u
  · subst h
    simp [isPending, RegisterClient, InitClientCommands, GoMap.get_set_self, GoMap.get_nil]
  · simp [isPending, RegisterClient, InitClientCommands, GoMap.get_set_ne h, h]

theorem clients_RegisterClient (s : Server) (req : RegisterRequest) (u : String) (now : Int)
    (a : String) (h : a ≠ u) :
    GoMap.get a (RegisterClient s req u now).1.clients = GoMap.get a s.clients := by
  simp [RegisterClient, InitClientCommands, GoMap.get_set_ne h]

theorem pendkeys_RegisterClient (s : Server) (req : RegisterRequest) (u : String) (now : Int)
    (a : String) (h : a ≠ u) :
    GoMap.get a (RegisterClient s req u now).1.cmdManager.pendingCmds
      = GoMap.get a s.cmdManager.pendingCmds := by
  simp [RegisterClient, InitClientCommands, GoMap.get_set_ne h]

theorem results_RegisterClient (s : Server) (req : RegisterRequest) (u : String) (now : Int) :
    (RegisterClient s req u now).1.cmdManager.cmdResults = s.cmdManager.cmdResults := rfl

theorem streams_RegisterClient (s : Server) (req : RegisterRequest) (u : String) (now : Int) :
    (RegisterClient s req u now).1.clientStreams = s.clientStreams := rfl

theorem Register_state (s : Server) (req : RegisterRequest) (u : String) (now : Int) :
    (Register s req u now).1 = (RegisterClient s req u now).1 := by
  simp [Register, RegisterClient]

/-- When validation fails `CreateCommand` changes nothing. -/
theorem CreateCommand_invalid {s : Server} {clientID : String} (cmdType content : String)
    (timeout : Int) (uuid : String) (now : Int) (h : ValidateClient s clientID ≠ none) :
    (CreateCommand s clientID cmdType content timeout uuid now).1 = s := by
  unfold CreateCommand
  cases hv : ValidateClient s clientID with
  | none => exact absurd hv h
  | some err => rfl

theorem CreateCommand_error_iff (s : Server) (clientID cmdType content : String)
    (timeout : Int) (uuid : String) (now : Int) :
    (CreateCommand s clientID cmdType content timeout uuid now).2.2 = none ↔
      ValidateClient s clientID = none := by
  unfold CreateCommand
  cases hv : ValidateClient s clientID <;> simp

theorem CreateCommand_id {s : Server} {clientID : String} (cmdType content : String)
    (timeout : Int) (uuid : String) (now : Int) (h : ValidateClient s clientID = none) :
    (CreateCommand s clientID cmdType content timeout uuid now).2 = (uuid, none) := by
  simp [CreateCommand, h]

theorem isPending_CreateCommand {s : Server} {clientID : String} (cmdType content : String)
    (timeout : Int) (uuid : String) (now : Int) (h : ValidateClient s clientID = none)
    (a c : String) :
    isPending (CreateCommand s clientID cmdType content timeout uuid now).1 a c =
      (if a = clientID ∧ c = uuid then true else isPending s a c) := by
  by_cases ha : a = clientID
  · subst ha
    by_cases hc : c = uuid
    · subst hc
      simp [isPending, CreateCommand, h, GoMap.get_set_self]
    · cases hp : GoMap.get a s.cmdManager.pendingCmds <;>
        simp [isPending, CreateCommand, h, GoMap.get_set_self, GoMap.get_set_ne hc, hc, hp,
          GoMap.get_nil]
  · simp [isPending, CreateCommand, h, GoMap.get_set_ne ha, ha]

theorem pendkeys_CreateCommand (s : Server) (clientID cmdType content : String)
    (timeout : Int) (uuid : String) (now : Int) (a : String) (ha : a ≠ clientID) :
    GoMap.get a (CreateCommand s clientID cmdType content timeout uuid now).1.cmdManager.pendingCmds
      = GoMap.get a s.cmdManager.pendingCmds := by
  unfold CreateCommand
  cases hv : ValidateClient s clientID with
  | none => simp [GoMap.get_set_ne ha]
  | some err => rfl

theorem clients_CreateCommand (s : Server) (clientID cmdType content : String)
    (timeout : Int) (uuid : String) (now : Int) :
    (CreateCommand s clientID cmdType content timeout uuid now).1.clients = s.clients := by
  unfold CreateCommand
  cases hv : ValidateClient s clientID <;> rfl

theorem results_CreateCommand (s : Server) (clientID cmdType content : String)
    (timeout : Int) (uuid : String) (now : Int) :
    (CreateCommand s clientID cmdType content timeout uuid now).1.cmdManager.cmdResults
      = s.cmdManager.cmdResults := by
  unfold CreateCommand
  cases hv : ValidateClient s clientID <;> rfl

theorem streams_CreateCommand (s : Server) (clientID cmdType content : String)
    (timeout : Int) (uuid : String) (now : Int) :
    (CreateCommand s clientID cmdType content timeout uuid now).1.clientStreams
      = s.clientStreams := by
  unfold CreateCommand
  cases hv : ValidateClient s clientID <;> rfl

theorem SendCommandToClient_state (s : Server) (clientID cmdType content : String)
    (timeout : Int) (uuid : String) (now : Int) (sendErr : Option String) :
    (SendCommandToClient s clientID cmdType content timeout uuid now sendErr).1
      = (CreateCommand s clientID cmdType content timeout uuid now).1 := by
  unfold SendCommandToClient
  rcases hc : CreateCommand s clientID cmdType content timeout uuid now with ⟨s1, cmdID, err⟩
  cases err with
  | some e => rfl
  | none =>
    simp only
    cases GoMap.get clientID s1.clientStreams with
    | none => rfl
    | some stream =>
      simp only
      rcases GetCommand s1 clientID cmdID with ⟨oc, oe⟩
      cases oe <;> cases oc <;> rfl

/-- Method `SaveCommandResult` either fails and changes nothing, or the command was
pending for the client. -/
theorem SaveCommandResult_cases (s : Server) (clientID cmdID : String) (result : CommandResult) :
    (isPending s clientID cmdID = false ∧ (SaveCommandResult s clientID cmdID result).1 = s ∧
        (SaveCommandResult s clientID cmdID result).2 ≠ none) ∨
      (isPending s clientID cmdID = true ∧ (SaveCommandResult s clientID cmdID result).2 = none) := by
  cases hp : isPending s clientID cmdID with
  | false =>
    obtain ⟨err, he⟩ := SaveCommandResult_not_pending result hp
    exact Or.inl ⟨rfl, by rw [he], by rw [he]; simp⟩
  | true =>
    obtain ⟨m, cmd, hm, hc⟩ := (isPending_iff s clientID cmdID).1 hp
    exact Or.inr ⟨rfl, by rw [SaveCommandResult_of_pending result hm hc]⟩

theorem isPending_SaveCommandResult {s : Server} {clientID cmdID : String}
    (result : CommandResult) (hp : isPending s clientID cmdID = true) (a c : String) :
    isPending (SaveCommandResult s clientID cmdID result).1 a c =
      (if a = clientID ∧ c = cmdID then false else isPending s a c) := by
  obtain ⟨m, cmd, hm, hc⟩ := (isPending_iff s clientID cmdID).1 hp
  rw [SaveCommandResult_of_pending result hm hc]
  by_cases ha : a = clientID
  · subst ha
    by_cases hcc : c = cmdID
    · subst hcc
      simp [isPending, GoMap.get_set_self, GoMap.get_delete_self]
    · simp [isPending, GoMap.get_set_self, GoMap.get_delete_ne hcc, hcc, hm]
  · simp [isPending, GoMap.get_set_ne ha, ha]

theorem results_SaveCommandResult {s : Server} {clientID cmdID : String}
    (result : CommandResult) (hp : isPending s clientID cmdID = true) (c : String) :
    GoMap.get c (SaveCommandResult s clientID cmdID result).1.cmdManager.cmdResults =
      (if c = cmdID then some result else GoMap.get c s.cmdManager.cmdResults) := by
  obtain ⟨m, cmd, hm, hc⟩ := (isPending_iff s clientID cmdID).1 hp
  rw [SaveCommandResult_of_pending result hm hc]
  by_cases hcc : c = cmdID
  · subst hcc
    simp [GoMap.get_set_self]
  · simp [GoMap.get_set_ne hcc, hcc]

theorem pendkeys_SaveCommandResult (s : Server) (clientID cmdID : String)
    (result : CommandResult) (a : String) :
    GoMap.get a (SaveCommandResult s clientID cmdID result).1.cmdManager.pendingCmds ≠ none ↔
      GoMap.get a s.cmdManager.pendingCmds ≠ none := by
  rcases SaveCommandResult_cases s clientID cmdID result with ⟨_, h, _⟩ | ⟨hp, _⟩
  · rw [h]
  · obtain ⟨m, cmd, hm, hc⟩ := (isPending_iff s clientID cmdID).1 hp
    rw [SaveCommandResult_of_pending result hm hc]
    by_cases ha : a = clientID
    · subst ha
      simp [GoMap.get_set_self, hm]
    · simp [GoMap.get_set_ne ha]

theorem clients_SaveCommandResult (s : Server) (clientID cmdID : String)
    (result : CommandResult) :
    (SaveCommandResult s clientID cmdID result).1.clients = s.clients := by
  rcases SaveCommandResult_cases s clientID cmdID result with ⟨_, h, _⟩ | ⟨hp, _⟩
  · rw [h]
  · obtain ⟨m, cmd, hm, hc⟩ := (isPending_iff s clientID cmdID).1 hp
    rw [SaveCommandResult_of_pending result hm hc]

theorem streams_SaveCommandResult (s : Server) (clientID cmdID : String)
    (result : CommandResult) :
    (SaveCommandResult s clientID cmdID result).1.clientStreams = s.clientStreams := by
  rcases SaveCommandResult_cases s clientID cmdID result with ⟨_, h, _⟩ | ⟨hp, _⟩
  · rw [h]
  · obtain ⟨m, cmd, hm, hc⟩ := (isPending_iff s clientID cmdID).1 hp
    rw [SaveCommandResult_of_pending result hm hc]

/-- The state after `ReportCommandResult`: unchanged when the client is
unknown, otherwise that of `SaveCommandResult` on the result's own ids. -/
theorem ReportCommandResult_state (s : Server) (result : CommandResult) :
    (ReportCommandResult s result).1 =
      (if ValidateClient s result.ClientId = none then
        (SaveCommandResult s result.ClientId result.CommandId result).1
      else s) := by
  cases hv : ValidateClient s result.ClientId with
  | some err => simp [ReportCommandResult, hv]
  | none =>
    rcases hs : SaveCommandResult s result.ClientId result.CommandId result with ⟨s1, e⟩
    cases e <;> simp [ReportCommandResult, hv, hs]

/-- Method `RemoveClient` either fails and changes nothing, or the client was registered. -/
theorem RemoveClient_cases (s : Server) (clientID : String) :
    (GoMap.get clientID s.clients = none ∧ RemoveClient s clientID
        = (s, some ("未知的客户端ID: " ++ clientID))) ∨
      (GoMap.get clientID s.clients ≠ none ∧ RemoveClient s clientID =
        ({ clients := GoMap.delete clientID s.clients,
           clientStreams := GoMap.delete clientID s.clientStreams,
           cmdManager := { pendingCmds := GoMap.delete clientID s.cmdManager.pendingCmds,
                           cmdResults := s.cmdManager.cmdResults } }, none)) := by
  cases hc : GoMap.get clientID s.clients with
  | none => exact Or.inl ⟨rfl, by simp [RemoveClient, hc]⟩
  | some c => exact Or.inr ⟨by simp, by simp [RemoveClient, hc, RemoveClientCommands]⟩

theorem isPending_RemoveClient {s : Server} {clientID : String}
    (h : GoMap.get clientID s.clients ≠ none) (a c : String) :
    isPending (RemoveClient s clientID).1 a c =
      (if a = clientID then false else isPending s a c) := by
  rcases RemoveClient_cases s clientID with ⟨h', _⟩ | ⟨_, he⟩
  · exact absurd h' h
  · rw [he]
    by_cases ha : a = clientID
    · subst ha
      simp [isPending, GoMap.get_delete_self]
    · simp [isPending, GoMap.get_delete_ne ha, ha]

theorem results_RemoveClient (s : Server) (clientID : String) :
    (RemoveClient s clientID).1.cmdManager.cmdResults = s.cmdManager.cmdResults := by
  rcases RemoveClient_cases s clientID with ⟨_, he⟩ | ⟨_, he⟩ <;> rw [he]

theorem clients_RemoveClient {s : Server} {clientID : String} (a : String) (ha : a ≠ clientID) :
    GoMap.get a (RemoveClient s clientID).1.clients = GoMap.get a s.clients := by
  rcases RemoveClient_cases s clientID with ⟨_, he⟩ | ⟨_, he⟩ <;> rw [he]
  simp [GoMap.get_delete_ne ha]

theorem pendkeys_RemoveClient {s : Server} {clientID : String} (a : String) (ha : a ≠ clientID) :
    GoMap.get a (RemoveClient s clientID).1.cmdManager.pendingCmds
      = GoMap.get a s.cmdManager.pendingCmds := by
  rcases RemoveClient_cases s clientID with ⟨_, he⟩ | ⟨_, he⟩ <;> rw [he]
  simp [GoMap.get_delete_ne ha]

theorem GoMap.keys_delete {V : Type} (k : String) (m : GoMap V) :
    GoMap.keys (GoMap.delete k m) = (GoMap.keys m).filter (fun a => decide (a ≠ k)) := by
  induction m with
  | nil => rfl
  | cons p t ih =>
    have ih' : List.map Prod.fst (List.filter (fun p => !decide (p.1 = k)) t) =
        List.filter (fun a => !decide (a = k)) (List.map Prod.fst t) := by
      simpa [GoMap.keys, GoMap.delete] using ih
    by_cases h : p.1 = k
    · simp [GoMap.keys, GoMap.delete, List.filter_cons, h, ih']
    · simp [GoMap.keys, GoMap.delete, List.filter_cons, h, ih']

theorem GoMap.nodup_keys_delete {V : Type} (k : String) {m : GoMap V}
    (h : (GoMap.keys m).Nodup) : (GoMap.keys (GoMap.delete k m)).Nodup := by
  rw [GoMap.keys_delete]
  exact h.filter _

theorem GoMap.nodup_keys_set {V : Type} (k : String) (v : V) {m : GoMap V}
    (h : (GoMap.keys m).Nodup) : (GoMap.keys (GoMap.set k v m)).Nodup := by
  have h1 : GoMap.keys (GoMap.set k v m) = k :: GoMap.keys (GoMap.delete k m) := rfl
  rw [h1, List.nodup_cons]
  refine ⟨?_, GoMap.nodup_keys_delete k h⟩
  rw [← GoMap.get_eq_none_iff]
  exact GoMap.get_delete_self k m

theorem GoMap.delete_of_get_none {V : Type} {k : String} {m : GoMap V}
    (h : GoMap.get k m = none) : GoMap.delete k m = m := by
  induction m with
  | nil => rfl
  | cons p t ih =>
    obtain ⟨k', v⟩ := p
    by_cases hk : k' = k
    · simp [GoMap.get, hk] at h
    · have ht : GoMap.get k t = none := by simpa [GoMap.get, hk] using h
      have ih' : List.filter (fun p => !decide (p.1 = k)) t = t := by
        simpa [GoMap.delete] using ih ht
      simp [GoMap.delete, List.filter_cons, hk, ih']

theorem GoMap.length_delete_of_get {V : Type} {k : String} {m : GoMap V}
    (hn : (GoMap.keys m).Nodup) (h : GoMap.get k m ≠ none) :
    (GoMap.delete k m).length + 1 = m.length := by
  induction m with
  | nil => simp [GoMap.get] at h
  | cons p t ih =>
    obtain ⟨k', v⟩ := p
    have hn' : k' ∉ GoMap.keys t ∧ (GoMap.keys t).Nodup := by
      simpa [GoMap.keys] using hn
    by_cases hk : k' = k
    · subst hk
      have ht : GoMap.get k' t = none := (GoMap.get_eq_none_iff k' t).2 hn'.1
      have hd : List.filter (fun p => !decide (p.1 = k')) t = t := by
        simpa [GoMap.delete] using GoMap.delete_of_get_none ht
      simp [GoMap.delete, List.filter_cons, hd]
    · have ht : GoMap.get k t ≠ none := by simpa [GoMap.get, hk] using h
      have ih' : (List.filter (fun p => !decide (p.1 = k)) t).length + 1 = t.length := by
        simpa [GoMap.delete] using ih hn'.2 ht
      simp [GoMap.delete, List.filter_cons, hk, ih']

theorem GoMap.get_set_ne_none_iff {V : Type} (k : String) (v : V) (m : GoMap V) (a : String) :
    GoMap.get a (GoMap.set k v m) ≠ none ↔ a = k ∨ GoMap.get a m ≠ none := by
  by_cases h : a = k
  · subst h
    simp [GoMap.get_set_self]
  · simp [GoMap.get_set_ne h, h]

/-- Method `UpdateClientInfo` keeps the command manager, the stream handles, the
set of registered ids and the number of records. -/
theorem UpdateClientInfo_frame (s : Server) (clientID : String) (info : Option SystemInfo)
    (now : Int) :
    (UpdateClientInfo s clientID info now).1.cmdManager = s.cmdManager ∧
      (UpdateClientInfo s clientID info now).1.clientStreams = s.clientStreams ∧
      (∀ a, GoMap.get a (UpdateClientInfo s clientID info now).1.clients ≠ none ↔
        GoMap.get a s.clients ≠ none) ∧
      ((GoMap.keys s.clients).Nodup →
        (GoMap.keys (UpdateClientInfo s clientID info now).1.clients).Nodup ∧
        (UpdateClientInfo s clientID info now).1.clients.length = s.clients.length) := by
  cases hc : GoMap.get clientID s.clients with
  | none => simp [UpdateClientInfo, hc]
  | some c =>
    refine ⟨by simp [UpdateClientInfo, hc], by simp [UpdateClientInfo, hc], ?_, ?_⟩
    · intro a
      simp only [UpdateClientInfo, hc, GoMap.get_set_ne_none_iff]
      constructor
      · rintro (h | h)
        · subst h
          simp [hc]
        · exact h
      · exact fun h => Or.inr h
    · intro hn
      refine ⟨by simpa [UpdateClientInfo, hc] using GoMap.nodup_keys_set clientID _ hn, ?_⟩
      have := GoMap.length_delete_of_get hn (by simp [hc] : GoMap.get clientID s.clients ≠ none)
      simpa [UpdateClientInfo, hc, GoMap.set] using this

/-! ## The invariant is kept by every operation -/

theorem isResulted_congr {s s' : Server}
    (h : s'.cmdManager.cmdResults = s.cmdManager.cmdResults) (c : String) :
    isResulted s' c = isResulted s c := by
  simp [isResulted, h]

theorem isPending_congr {s s' : Server}
    (h : s'.cmdManager.pendingCmds = s.cmdManager.pendingCmds) (a c : String) :
    isPending s' a c = isPending s a c := by
  simp [isPending, h]

theorem Inv_NewServer : Inv [] NewServer where
  clients_used := by intro a h; exact absurd rfl h
  pendkeys_used := by intro a h; exact absurd rfl h
  pending_used := by intro a c h; simp [isPending, NewServer, GoMap.get_nil] at h
  results_used := by intro c h; simp [isResulted, NewServer, GoMap.get_nil] at h
  pending_unique := by intro a b c h; simp [isPending, NewServer, GoMap.get_nil] at h
  disjoint := by intro a c h; simp [isPending, NewServer, GoMap.get_nil] at h
  clients_nodup := by simp [NewServer, GoMap.keys]

/-- A state with the same registry and command manager satisfies the same invariant. -/
theorem Inv_congr {used : List String} {s s' : Server} (hI : Inv used s)
    (hc : s'.clients = s.clients) (hm : s'.cmdManager = s.cmdManager) : Inv used s' where
  clients_used := by rw [hc]; exact hI.clients_used
  pendkeys_used := by rw [hm]; exact hI.pendkeys_used
  pending_used := by
    intro a c h
    have hp : s'.cmdManager.pendingCmds = s.cmdManager.pendingCmds := by rw [hm]
    rw [isPending_congr hp] at h
    exact hI.pending_used a c h
  results_used := by
    intro c h
    have hr : s'.cmdManager.cmdResults = s.cmdManager.cmdResults := by rw [hm]
    rw [isResulted_congr hr] at h
    exact hI.results_used c h
  pending_unique := by
    intro a b c h1 h2
    have hp : s'.cmdManager.pendingCmds = s.cmdManager.pendingCmds := by rw [hm]
    rw [isPending_congr hp] at h1 h2
    exact hI.pending_unique a b c h1 h2
  disjoint := by
    intro a c h
    have hp : s'.cmdManager.pendingCmds = s.cmdManager.pendingCmds := by rw [hm]
    have hr : s'.cmdManager.cmdResults = s.cmdManager.cmdResults := by rw [hm]
    rw [isPending_congr hp] at h
    rw [isResulted_congr hr]
    exact hI.disjoint a c h
  clients_nodup := by rw [hc]; exact hI.clients_nodup

theorem Inv_RegisterClient {used : List String} {s : Server} (hI : Inv used s)
    (req : RegisterRequest) (u : String) (now : Int) :
    Inv (u :: used) (RegisterClient s req u now).1 where
  clients_used := by
    intro a h
    by_cases ha : a = u
    · simp [ha]
    · rw [clients_RegisterClient s req u now a ha] at h
      exact List.mem_cons_of_mem _ (hI.clients_used a h)
  pendkeys_used := by
    intro a h
    by_cases ha : a = u
    · simp [ha]
    · rw [pendkeys_RegisterClient s req u now a ha] at h
      exact List.mem_cons_of_mem _ (hI.pendkeys_used a h)
  pending_used := by
    intro a c h
    rw [isPending_RegisterClient] at h
    split at h
    · simp at h
    · exact List.mem_cons_of_mem _ (hI.pending_used a c h)
  results_used := by
    intro c h
    rw [isResulted_congr (results_RegisterClient s req u now)] at h
    exact List.mem_cons_of_mem _ (hI.results_used c h)
  pending_unique := by
    intro a b c h1 h2
    rw [isPending_RegisterClient] at h1 h2
    split at h1
    · simp at h1
    · split at h2
      · simp at h2
      · exact hI.pending_unique a b c h1 h2
  disjoint := by
    intro a c h
    rw [isPending_RegisterClient] at h
    rw [isResulted_congr (results_RegisterClient s req u now)]
    split at h
    · simp at h
    · exact hI.disjoint a c h
  clients_nodup := by
    simpa [RegisterClient, InitClientCommands] using GoMap.nodup_keys_set u _ hI.clients_nodup

theorem Inv_CreateCommand {used : List String} {s : Server} (hI : Inv used s)
    {clientID : String} (cmdType content : String) (timeout : Int) {u : String} (now : Int)
    (hv : ValidateClient s clientID = none) (hu : u ∉ used) :
    Inv (u :: used) (CreateCommand s clientID cmdType content timeout u now).1 where
  clients_used := by
    intro a h
    rw [clients_CreateCommand] at h
    exact List.mem_cons_of_mem _ (hI.clients_used a h)
  pendkeys_used := by
    intro a h
    by_cases ha : a = clientID
    · subst ha
      exact List.mem_cons_of_mem _
        (hI.clients_used a ((ValidateClient_eq_none_iff s a).1 hv))
    · rw [pendkeys_CreateCommand s clientID cmdType content timeout u now a ha] at h
      exact List.mem_cons_of_mem _ (hI.pendkeys_used a h)
  pending_used := by
    intro a c h
    rw [isPending_CreateCommand cmdType content timeout u now hv] at h
    split at h
    · rename_i hac
      simp [hac.2]
    · exact List.mem_cons_of_mem _ (hI.pending_used a c h)
  results_used := by
    intro c h
    rw [isResulted_congr (results_CreateCommand s clientID cmdType content timeout u now)] at h
    exact List.mem_cons_of_mem _ (hI.results_used c h)
  pending_unique := by
    intro a b c h1 h2
    rw [isPending_CreateCommand cmdType content timeout u now hv] at h1 h2
    split at h1
    · rename_i hac
      split at h2
      · rename_i hbc
        rw [hac.1, hbc.1]
      · exact absurd (hac.2 ▸ hI.pending_used b c h2) hu
    · split at h2
      · rename_i hbc
        exact absurd (hbc.2 ▸ hI.pending_used a c h1) hu
      · exact hI.pending_unique a b c h1 h2
  disjoint := by
    intro a c h
    rw [isPending_CreateCommand cmdType content timeout u now hv] at h
    rw [isResulted_congr (results_CreateCommand s clientID cmdType content timeout u now)]
    split at h
    · rename_i hac
      cases hr : isResulted s c with
      | false => rfl
      | true => exact absurd (hac.2 ▸ hI.results_used c hr) hu
    · exact hI.disjoint a c h
  clients_nodup := by
    rw [clients_CreateCommand]
    exact hI.clients_nodup

theorem isResulted_SaveCommandResult {s : Server} {clientID cmdID : String}
    (result : CommandResult) (hp : isPending s clientID cmdID = true) (c : String) :
    isResulted (SaveCommandResult s clientID cmdID result).1 c =
      (if c = cmdID then true else isResulted s c) := by
  unfold isResulted
  rw [results_SaveCommandResult result hp]
  split <;> simp

theorem Inv_SaveCommandResult {used : List String} {s : Server} (hI : Inv used s)
    (clientID cmdID : String) (result : CommandResult) :
    Inv used (SaveCommandResult s clientID cmdID result).1 := by
  rcases SaveCommandResult_cases s clientID cmdID result with ⟨_, h, _⟩ | ⟨hp, _⟩
  · rw [h]
    exact hI
  · exact
    { clients_used := by
        rw [clients_SaveCommandResult]
        exact hI.clients_used
      pendkeys_used := by
        intro a h
        exact hI.pendkeys_used a ((pendkeys_SaveCommandResult s clientID cmdID result a).1 h)
      pending_used := by
        intro a c h
        rw [isPending_SaveCommandResult result hp] at h
        split at h
        · simp at h
        · exact hI.pending_used a c h
      results_used := by
        intro c h
        rw [isResulted_SaveCommandResult result hp] at h
        split at h
        · rename_i hc
          exact hc ▸ hI.pending_used clientID cmdID hp
        · exact hI.results_used c h
      pending_unique := by
        intro a b c h1 h2
        rw [isPending_SaveCommandResult result hp] at h1 h2
        split at h1
        · simp at h1
        · split at h2
          · simp at h2
          · exact hI.pending_unique a b c h1 h2
      disjoint := by
        intro a c h
        rw [isPending_SaveCommandResult result hp] at h
        rw [isResulted_SaveCommandResult result hp]
        split at h
        · simp at h
        · rename_i hac
          split
          · rename_i hc
            subst hc
            exact absurd ⟨hI.pending_unique a clientID c h hp, rfl⟩ hac
          · exact hI.disjoint a c h
      clients_nodup := by
        rw [clients_SaveCommandResult]
        exact hI.clients_nodup }

theorem Inv_RemoveClient {used : List String} {s : Server} (hI : Inv used s)
    (clientID : String) : Inv used (RemoveClient s clientID).1 := by
  rcases RemoveClient_cases s clientID with ⟨_, he⟩ | ⟨hc, he⟩
  · rw [he]
    exact hI
  · have hres := results_RemoveClient s clientID
    exact
    { clients_used := by
        intro a h
        by_cases ha : a = clientID
        · subst ha
          exact hI.clients_used a hc
        · rw [clients_RemoveClient a ha] at h
          exact hI.clients_used a h
      pendkeys_used := by
        intro a h
        by_cases ha : a = clientID
        · subst ha
          exact hI.clients_used a hc
        · rw [pendkeys_RemoveClient a ha] at h
          exact hI.pendkeys_used a h
      pending_used := by
        intro a c h
        rw [isPending_RemoveClient hc] at h
        split at h
        · simp at h
        · exact hI.pending_used a c h
      results_used := by
        intro c h
        rw [isResulted_congr hres] at h
        exact hI.results_used c h
      pending_unique := by
        intro a b c h1 h2
        rw [isPending_RemoveClient hc] at h1 h2
        split at h1
        · simp at h1
        · split at h2
          · simp at h2
          · exact hI.pending_unique a b c h1 h2
      disjoint := by
        intro a c h
        rw [isPending_RemoveClient hc] at h
        rw [isResulted_congr hres]
        split at h
        · simp at h
        · exact hI.disjoint a c h
      clients_nodup := by
        rw [he]
        exact GoMap.nodup_keys_delete clientID hI.clients_nodup }

theorem isPending_RemoveClientCommands (s : Server) (clientID a c : String) :
    isPending (RemoveClientCommands s clientID) a c =
      (if a = clientID then false else isPending s a c) := by
  by_cases ha : a = clientID
  · subst ha
    simp [isPending, RemoveClientCommands, GoMap.get_delete_self]
  · simp [isPending, RemoveClientCommands, GoMap.get_delete_ne ha, ha]

theorem isPending_of_RemoveClientCommands {s : Server} {clientID b c : String}
    (h : isPending (RemoveClientCommands s clientID) b c = true) : isPending s b c = true := by
  rw [isPending_RemoveClientCommands] at h
  split at h
  · simp at h
  · exact h

theorem pendkeys_RemoveClientCommands (s : Server) {clientID : String} (a : String)
    (ha : a ≠ clientID) :
    GoMap.get a (RemoveClientCommands s clientID).cmdManager.pendingCmds
      = GoMap.get a s.cmdManager.pendingCmds := by
  simp [RemoveClientCommands, GoMap.get_delete_ne ha]

theorem Inv_RemoveClientCommands {used : List String} {s : Server} (hI : Inv used s)
    (clientID : String) : Inv used (RemoveClientCommands s clientID) where
  clients_used := hI.clients_used
  pendkeys_used := by
    intro a h
    by_cases ha : a = clientID
    · subst ha
      simp [RemoveClientCommands, GoMap.get_delete_self] at h
    · rw [pendkeys_RemoveClientCommands s a ha] at h
      exact hI.pendkeys_used a h
  pending_used := fun a c h => hI.pending_used a c (isPending_of_RemoveClientCommands h)
  results_used := hI.results_used
  pending_unique := fun a b c h1 h2 =>
    hI.pending_unique a b c (isPending_of_RemoveClientCommands h1)
      (isPending_of_RemoveClientCommands h2)
  disjoint := fun a c h => hI.disjoint a c (isPending_of_RemoveClientCommands h)
  clients_nodup := hI.clients_nodup

theorem Inv_UpdateClientInfo {used : List String} {s : Server} (hI : Inv used s)
    (clientID : String) (info : Option SystemInfo) (now : Int) :
    Inv used (UpdateClientInfo s clientID info now).1 := by
  obtain ⟨hm, _, hd, hn⟩ := UpdateClientInfo_frame s clientID info now
  have hp : (UpdateClientInfo s clientID info now).1.cmdManager.pendingCmds
      = s.cmdManager.pendingCmds := by rw [hm]
  have hr : (UpdateClientInfo s clientID info now).1.cmdManager.cmdResults
      = s.cmdManager.cmdResults := by rw [hm]
  exact
    { clients_used := fun a h => hI.clients_used a ((hd a).1 h)
      pendkeys_used := by rw [hp]; exact hI.pendkeys_used
      pending_used := by
        intro a c h
        rw [isPending_congr hp] at h
        exact hI.pending_used a c h
      results_used := by
        intro c h
        rw [isResulted_congr hr] at h
        exact hI.results_used c h
      pending_unique := by
        intro a b c h1 h2
        rw [isPending_congr hp] at h1 h2
        exact hI.pending_unique a b c h1 h2
      disjoint := by
        intro a c h
        rw [isPending_congr hp] at h
        rw [isResulted_congr hr]
        exact hI.disjoint a c h
      clients_nodup := (hn hI.clients_nodup).1 }

theorem ReceiveCommands_open_frame (s : Server) (clientID : String) (stream : Stream) :
    (ReceiveCommands_open s clientID stream).1.clients = s.clients ∧
      (ReceiveCommands_open s clientID stream).1.cmdManager = s.cmdManager := by
  unfold ReceiveCommands_open
  cases ValidateClient s clientID <;> exact ⟨rfl, rfl⟩

/-- The identifiers drawn after one call. -/
theorem usedAfter_single (used : List String) (s : Server) (op : Op) :
    usedAfter used s [op] = (match op.drawn s with | none => used | some u => u :: used) := by
  simp only [usedAfter]

/-- One call keeps the invariant when the identifier it draws is fresh. -/
theorem Inv_exec {used : List String} {s : Server} (hI : Inv used s) (op : Op)
    (hf : ∀ u, op.drawn s = some u → u ∉ used) :
    Inv (usedAfter used s [op]) (exec s op) := by
  rw [usedAfter_single]
  cases op with
  | register req uuid now =>
    simp only [Op.drawn, exec, Register_state]
    exact Inv_RegisterClient hI req uuid now
  | updateClientInfo clientID info now =>
    exact Inv_UpdateClientInfo hI clientID info now
  | removeClient clientID => exact Inv_RemoveClient hI clientID
  | removeClientCommands clientID => exact Inv_RemoveClientCommands hI clientID
  | createCommand clientID cmdType content timeout uuid now =>
    by_cases hv : ValidateClient s clientID = none
    · have hu : uuid ∉ used := hf uuid (by simp [Op.drawn, hv])
      simp only [Op.drawn, hv, exec, if_true]
      exact Inv_CreateCommand hI cmdType content timeout now hv hu
    · simp only [Op.drawn, hv, exec, if_false]
      rw [CreateCommand_invalid cmdType content timeout uuid now hv]
      exact hI
  | sendCommandToClient clientID cmdType content timeout uuid now sendErr =>
    by_cases hv : ValidateClient s clientID = none
    · have hu : uuid ∉ used := hf uuid (by simp [Op.drawn, hv])
      simp only [Op.drawn, hv, exec, if_true, SendCommandToClient_state]
      exact Inv_CreateCommand hI cmdType content timeout now hv hu
    · simp only [Op.drawn, hv, exec, if_false, SendCommandToClient_state]
      rw [CreateCommand_invalid cmdType content timeout uuid now hv]
      exact hI
  | saveCommandResult clientID cmdID result =>
    exact Inv_SaveCommandResult hI clientID cmdID result
  | reportCommandResult result =>
    simp only [Op.drawn, exec, ReportCommandResult_state]
    split
    · exact Inv_SaveCommandResult hI _ _ result
    · exact hI
  | receiveCommandsOpen clientID stream =>
    exact Inv_congr hI (ReceiveCommands_open_frame s clientID stream).1
      (ReceiveCommands_open_frame s clientID stream).2
  | receiveCommandsDone clientID => exact Inv_congr hI rfl rfl

theorem run_cons (s : Server) (op : Op) (ops : List Op) :
    run s (op :: ops) = run (exec s op) ops := rfl

theorem run_append (s : Server) (ops₁ ops₂ : List Op) :
    run s (ops₁ ++ ops₂) = run (run s ops₁) ops₂ := by
  simp [run, List.foldl_append]

/-- A run with fresh identifiers keeps the invariant. -/
theorem Inv_run {used : List String} {s : Server} (ops : List Op) (hI : Inv used s)
    (hf : freshRun used s ops = true) : Inv (usedAfter used s ops) (run s ops) := by
  induction ops generalizing used s with
  | nil => exact hI
  | cons op ops ih =>
    rw [run_cons]
    have h1 := Inv_exec hI op
    rw [usedAfter_single] at h1
    simp only [freshRun, usedAfter] at hf ⊢
    cases hd : op.drawn s with
    | none =>
      rw [hd] at hf h1
      exact ih (h1 (by simp)) hf
    | some u =>
      rw [hd] at hf h1
      simp only [Bool.and_eq_true, decide_eq_true_eq] at hf
      exact ih (h1 (by intro v hv; cases hv; exact hf.1)) hf.2

/-! ## Command lifecycle along runs -/

/-- C4: in every state reached from the empty server by a run of server calls
whose drawn identifiers are fresh, no command id is at once pending for some
client and a key of the result store. -/
theorem pending_resulted_disjoint (ops : List Op) (hf : freshRun [] NewServer ops = true)
    (a c : String) :
    ¬ (isPending (run NewServer ops) a c = true ∧ isResulted (run NewServer ops) c = true) := by
  intro h
  have hI := Inv_run ops Inv_NewServer hf
  have := hI.disjoint a c h.1
  rw [h.2] at this
  exact Bool.noConfusion this

/-- Witness for C4: the sample run with the report; `C1` is resulted and not pending. -/
theorem pending_resulted_disjoint_witness :
    freshRun [] NewServer opsReported = true ∧ isResulted (run NewServer opsReported) "C1" = true ∧
      ¬ (isPending (run NewServer opsReported) "A1" "C1" = true ∧
        isResulted (run NewServer opsReported) "C1" = true) :=
  ⟨by decide, by decide, pending_resulted_disjoint opsReported (by decide) "A1" "C1"⟩

/-- A call changes the stored result of `c` only by a successful
`SaveCommandResult` for `c`, made while `c` is pending for the client passed to it. -/
theorem exec_results_cases (s : Server) (op : Op) (c : String) (r : CommandResult)
    (h : GoMap.get c (exec s op).cmdManager.cmdResults = some r) :
    GoMap.get c s.cmdManager.cmdResults = some r ∨
      ∃ a, op.saveArgs s = some (a, c, r) ∧ isPending s a c = true := by
  have hsave : ∀ a c' res,
      GoMap.get c (SaveCommandResult s a c' res).1.cmdManager.cmdResults = some r →
      GoMap.get c s.cmdManager.cmdResults = some r ∨
        ((a, c', res) = (a, c, r) ∧ isPending s a c = true) := by
    intro a c' res h
    rcases SaveCommandResult_cases s a c' res with ⟨_, he, _⟩ | ⟨hp, _⟩
    · rw [he] at h
      exact Or.inl h
    · rw [results_SaveCommandResult res hp] at h
      split at h
      · rename_i hc
        subst hc
        cases h
        exact Or.inr ⟨rfl, hp⟩
      · exact Or.inl h
  cases op with
  | register req uuid now =>
    simp only [exec, Register_state, results_RegisterClient] at h
    exact Or.inl h
  | updateClientInfo clientID info now =>
    simp only [exec, (UpdateClientInfo_frame s clientID info now).1] at h
    exact Or.inl h
  | removeClient clientID =>
    simp only [exec, results_RemoveClient] at h
    exact Or.inl h
  | removeClientCommands clientID => exact Or.inl h
  | createCommand clientID cmdType content timeout uuid now =>
    simp only [exec, results_CreateCommand] at h
    exact Or.inl h
  | sendCommandToClient clientID cmdType content timeout uuid now sendErr =>
    simp only [exec, SendCommandToClient_state, results_CreateCommand] at h
    exact Or.inl h
  | saveCommandResult clientID cmdID result =>
    rcases hsave clientID cmdID result h with h' | ⟨he, hp⟩
    · exact Or.inl h'
    · exact Or.inr ⟨clientID, by simp only [Op.saveArgs]; rw [he], hp⟩
  | reportCommandResult result =>
    simp only [exec, ReportCommandResult_state] at h
    by_cases hv : ValidateClient s result.ClientId = none
    · rw [if_pos hv] at h
      rcases hsave _ _ result h with h' | ⟨he, hp⟩
      · exact Or.inl h'
      · exact Or.inr ⟨result.ClientId, by simp only [Op.saveArgs, if_pos hv]; rw [he], hp⟩
    · rw [if_neg hv] at h
      exact Or.inl h
  | receiveCommandsOpen clientID stream =>
    simp only [exec, (ReceiveCommands_open_frame s clientID stream).2] at h
    exact Or.inl h
  | receiveCommandsDone clientID => exact Or.inl h

/-- C6: every result `r` stored under key `c` in a state reached from the empty
server was stored by a call of the run that passed `(a, c, r)` to
`SaveCommandResult` in an earlier state of the run in which `c` was in the
pending set of `a`; when that call is `ReportCommandResult`, `a` is the
`ClientId` of the stored result. -/
theorem stored_result_was_pending (ops : List Op) (c : String) (r : CommandResult)
    (h : GoMap.get c (run NewServer ops).cmdManager.cmdResults = some r) :
    ∃ pre op post a, ops = pre ++ op :: post ∧
      op.saveArgs (run NewServer pre) = some (a, c, r) ∧
      isPending (run NewServer pre) a c = true ∧
      (∀ res, op = Op.reportCommandResult res → a = r.ClientId ∧ c = r.CommandId) := by
  induction ops using List.reverseRecOn with
  | nil => simp [run, NewServer, GoMap.get_nil] at h
  | append_singleton ops op ih =>
    rw [run_append] at h
    rcases exec_results_cases (run NewServer ops) op c r h with h' | ⟨a, hs, hp⟩
    · obtain ⟨pre, op', post, a, he, hs, hp, hr⟩ := ih h'
      exact ⟨pre, op', post ++ [op], a, by simp [he], hs, hp, hr⟩
    · refine ⟨ops, op, [], a, rfl, hs, hp, ?_⟩
      intro res hres
      subst hres
      simp only [Op.saveArgs] at hs
      split at hs
      · cases hs
        exact ⟨rfl, rfl⟩
      · cases hs

/-- Witness for C6: in the sample run the result of `C1` is stored, and `C1`
was pending for `A1` before the report. -/
theorem stored_result_was_pending_witness :
    GoMap.get "C1" (run NewServer opsReported).cmdManager.cmdResults = some resultC1 ∧
      ∃ pre op post a, opsReported = pre ++ op :: post ∧
        op.saveArgs (run NewServer pre) = some (a, "C1", resultC1) ∧
        isPending (run NewServer pre) a "C1" = true ∧
        (∀ res, op = Op.reportCommandResult res →
          a = resultC1.ClientId ∧ "C1" = resultC1.CommandId) :=
  ⟨by decide, stored_result_was_pending opsReported "C1" resultC1 (by decide)⟩

theorem freshRun_cons (used : List String) (s : Server) (op : Op) (ops : List Op) :
    freshRun used s (op :: ops) = true ↔
      (∀ u, op.drawn s = some u → u ∉ used) ∧
        freshRun (usedAfter used s [op]) (exec s op) ops = true := by
  rw [usedAfter_single]
  simp only [freshRun]
  cases op.drawn s with
  | none => simp
  | some u => simp

theorem usedAfter_cons (used : List String) (s : Server) (op : Op) (ops : List Op) :
    usedAfter used s (op :: ops) = usedAfter (usedAfter used s [op]) (exec s op) ops := by
  rw [usedAfter_single]
  simp only [usedAfter]
  cases op.drawn s <;> rfl

theorem mem_usedAfter_single {used : List String} (s : Server) (op : Op) {c : String}
    (h : c ∈ used) : c ∈ usedAfter used s [op] := by
  rw [usedAfter_single]
  cases op.drawn s with
  | none => exact h
  | some u => exact List.mem_cons_of_mem _ h

theorem mem_usedAfter {used : List String} (s : Server) (ops : List Op) {c : String}
    (h : c ∈ used) : c ∈ usedAfter used s ops := by
  induction ops generalizing used s with
  | nil => exact h
  | cons op ops ih =>
    rw [usedAfter_cons]
    exact ih _ (mem_usedAfter_single s op h)

theorem isPending_of_SaveCommandResult {s : Server} {clientID cmdID : String}
    {result : CommandResult} {b c : String}
    (h : isPending (SaveCommandResult s clientID cmdID result).1 b c = true) :
    isPending s b c = true := by
  rcases SaveCommandResult_cases s clientID cmdID result with ⟨_, he, _⟩ | ⟨hp, _⟩
  · rwa [he] at h
  · rw [isPending_SaveCommandResult result hp] at h
    split at h
    · simp at h
    · exact h

theorem isPending_of_RemoveClient {s : Server} {clientID : String} {b c : String}
    (h : isPending (RemoveClient s clientID).1 b c = true) : isPending s b c = true := by
  rcases RemoveClient_cases s clientID with ⟨_, he⟩ | ⟨hc, _⟩
  · rwa [he] at h
  · rw [isPending_RemoveClient hc] at h
    split at h
    · simp at h
    · exact h

theorem isPending_UpdateClientInfo (s : Server) (clientID : String) (info : Option SystemInfo)
    (now : Int) (b c : String) :
    isPending (UpdateClientInfo s clientID info now).1 b c = isPending s b c :=
  isPending_congr (by rw [(UpdateClientInfo_frame s clientID info now).1]) b c

theorem isPending_ReceiveCommands_open (s : Server) (clientID : String) (stream : Stream)
    (b c : String) : isPending (ReceiveCommands_open s clientID stream).1 b c = isPending s b c :=
  isPending_congr (by rw [(ReceiveCommands_open_frame s clientID stream).2]) b c

/-- A command id becomes pending only in the call that draws it. -/
theorem exec_pending_new (s : Server) (op : Op) (b c : String)
    (h : isPending (exec s op) b c = true) :
    isPending s b c = true ∨ op.drawn s = some c := by
  have hcreate : ∀ clientID cmdType content timeout uuid now,
      isPending (CreateCommand s clientID cmdType content timeout uuid now).1 b c = true →
      isPending s b c = true ∨
        (if ValidateClient s clientID = none then some uuid else none) = some c := by
    intro clientID cmdType content timeout uuid now h
    by_cases hv : ValidateClient s clientID = none
    · rw [isPending_CreateCommand cmdType content timeout uuid now hv] at h
      split at h
      · rename_i hbc
        exact Or.inr (by rw [if_pos hv, hbc.2])
      · exact Or.inl h
    · rw [CreateCommand_invalid cmdType content timeout uuid now hv] at h
      exact Or.inl h
  cases op with
  | register req uuid now =>
    simp only [exec, Register_state, isPending_RegisterClient] at h
    split at h
    · simp at h
    · exact Or.inl h
  | updateClientInfo clientID info now =>
    simp only [exec, isPending_UpdateClientInfo] at h
    exact Or.inl h
  | removeClient clientID => exact Or.inl (isPending_of_RemoveClient h)
  | removeClientCommands clientID => exact Or.inl (isPending_of_RemoveClientCommands h)
  | createCommand clientID cmdType content timeout uuid now =>
    exact hcreate clientID cmdType content timeout uuid now h
  | sendCommandToClient clientID cmdType content timeout uuid now sendErr =>
    simp only [exec, SendCommandToClient_state] at h
    exact hcreate clientID cmdType content timeout uuid now h
  | saveCommandResult clientID cmdID result => exact Or.inl (isPending_of_SaveCommandResult h)
  | reportCommandResult result =>
    simp only [exec, ReportCommandResult_state] at h
    split at h
    · exact Or.inl (isPending_of_SaveCommandResult h)
    · exact Or.inl h
  | receiveCommandsOpen clientID stream =>
    simp only [exec, isPending_ReceiveCommands_open] at h
    exact Or.inl h
  | receiveCommandsDone clientID => exact Or.inl h

/-- A stored result whose command is pending nowhere survives every call. -/
theorem exec_results_keep (s : Server) (op : Op) (c : String) (r : CommandResult)
    (hr : GoMap.get c s.cmdManager.cmdResults = some r)
    (hn : ∀ b, isPending s b c = false) :
    GoMap.get c (exec s op).cmdManager.cmdResults = some r := by
  have hsave : ∀ a c' res,
      GoMap.get c (SaveCommandResult s a c' res).1.cmdManager.cmdResults = some r := by
    intro a c' res
    rcases SaveCommandResult_cases s a c' res with ⟨_, he, _⟩ | ⟨hp, _⟩
    · rwa [he]
    · rw [results_SaveCommandResult res hp]
      split
      · rename_i hc
        subst hc
        rw [hn a] at hp
        exact Bool.noConfusion hp
      · exact hr
  cases op with
  | register req uuid now => simpa only [exec, Register_state, results_RegisterClient] using hr
  | updateClientInfo clientID info now =>
    simpa only [exec, (UpdateClientInfo_frame s clientID info now).1] using hr
  | removeClient clientID => simpa only [exec, results_RemoveClient] using hr
  | removeClientCommands clientID => exact hr
  | createCommand clientID cmdType content timeout uuid now =>
    simpa only [exec, results_CreateCommand] using hr
  | sendCommandToClient clientID cmdType content timeout uuid now sendErr =>
    simpa only [exec, SendCommandToClient_state, results_CreateCommand] using hr
  | saveCommandResult clientID cmdID result => exact hsave clientID cmdID result
  | reportCommandResult result =>
    simp only [exec, ReportCommandResult_state]
    split
    · exact hsave _ _ result
    · exact hr
  | receiveCommandsOpen clientID stream =>
    simpa only [exec, (ReceiveCommands_open_frame s clientID stream).2] using hr
  | receiveCommandsDone clientID => exact hr

/-- A stored result whose command id was already drawn stays stored, and the
command stays pending nowhere, along every run with fresh identifiers. -/
theorem settled_run {used : List String} {s : Server} (ops : List Op) (c : String)
    (r : CommandResult) (hu : c ∈ used) (hf : freshRun used s ops = true)
    (hr : GoMap.get c s.cmdManager.cmdResults = some r)
    (hn : ∀ b, isPending s b c = false) :
    GoMap.get c (run s ops).cmdManager.cmdResults = some r ∧
      ∀ b, isPending (run s ops) b c = false := by
  induction ops generalizing used s with
  | nil => exact ⟨hr, hn⟩
  | cons op ops ih =>
    rw [freshRun_cons] at hf
    rw [run_cons]
    refine ih (mem_usedAfter_single s op hu) hf.2 (exec_results_keep s op c r hr hn) ?_
    intro b
    cases hb : isPending (exec s op) b c with
    | false => rfl
    | true =>
      rcases exec_pending_new s op b c hb with h | h
      · rw [hn b] at h
        exact Bool.noConfusion h
      · exact absurd hu (hf.1 c h)

/-- C7: once `SaveCommandResult` has stored `r` for `c` in a state reached from
the empty server, `GetCommandResult c` returns `r` after every further run of
server calls with fresh identifiers. -/
theorem stored_result_kept (ops₁ ops₂ : List Op) (a c : String) (r : CommandResult)
    (hf₁ : freshRun [] NewServer ops₁ = true)
    (hok : (SaveCommandResult (run NewServer ops₁) a c r).2 = none)
    (hf₂ : freshRun (usedAfter [] NewServer ops₁)
      (SaveCommandResult (run NewServer ops₁) a c r).1 ops₂ = true) :
    GetCommandResult (run (SaveCommandResult (run NewServer ops₁) a c r).1 ops₂) c
      = (some r, none) := by
  have hI := Inv_run ops₁ Inv_NewServer hf₁
  rcases SaveCommandResult_cases (run NewServer ops₁) a c r with ⟨_, _, hne⟩ | ⟨hp, _⟩
  · exact absurd hok hne
  · have hset := settled_run ops₂ c r (hI.pending_used a c hp) hf₂
      (by rw [results_SaveCommandResult r hp, if_pos rfl])
      (by
        intro b
        rw [isPending_SaveCommandResult r hp]
        split
        · rfl
        · rename_i hbc
          cases hb : isPending (run NewServer ops₁) b c with
          | false => rfl
          | true => exact absurd ⟨hI.pending_unique b a c hb hp, rfl⟩ hbc)
    simp [GetCommandResult, hset.1]

/-- Witness for C7: after `A1` has reported `resultC1`, later reports for `C1`,
a fresh command, the removal of `A1` and a new registration leave the result. -/
theorem stored_result_kept_witness :
    freshRun [] NewServer opsDispatched = true ∧
      (SaveCommandResult (run NewServer opsDispatched) "A1" "C1" resultC1).2 = none ∧
      freshRun (usedAfter [] NewServer opsDispatched)
        (SaveCommandResult (run NewServer opsDispatched) "A1" "C1" resultC1).1
        opsAfterReport = true ∧
      GetCommandResult
        (run (SaveCommandResult (run NewServer opsDispatched) "A1" "C1" resultC1).1
          opsAfterReport) "C1" = (some resultC1, none) :=
  ⟨by decide, by decide, by decide,
    stored_result_kept opsDispatched opsAfterReport "A1" "C1" resultC1 (by decide) (by decide)
      (by decide)⟩

/-- Counterexample to C5: `C1` is created for `A1`, then `A1` is removed; `C1`
is then neither pending for any client nor in the result store. -/
theorem created_command_lost :
    freshRun [] NewServer opsRegistered = true ∧
      (CreateCommand (run NewServer opsRegistered) "A1" "shell" "echo hi" 5 "C1" 102).2
        = ("C1", none) ∧
      freshRun ("C1" :: usedAfter [] NewServer opsRegistered) srvCreated
        [Op.removeClient "A1"] = true ∧
      (∀ b, isPending (run srvCreated [Op.removeClient "A1"]) b "C1" = false) ∧
      isResulted (run srvCreated [Op.removeClient "A1"]) "C1" = false := by
  refine ⟨by decide, by decide, by decide, ?_, by decide⟩
  intro b
  have h : (run srvCreated [Op.removeClient "A1"]).cmdManager.pendingCmds = [] := by decide
  simp [isPending, h, GoMap.get_nil]

theorem isResulted_iff (s : Server) (c : String) :
    isResulted s c = true ↔ ∃ r, GoMap.get c s.cmdManager.cmdResults = some r := by
  unfold isResulted
  cases GoMap.get c s.cmdManager.cmdResults <;> simp

/-- A command that is neither pending nor resulted, and whose id was already
drawn, stays so along every run with fresh identifiers. -/
theorem gone_run {used : List String} {s : Server} (ops : List Op) (c : String)
    (hu : c ∈ used) (hf : freshRun used s ops = true)
    (hr : isResulted s c = false) (hn : ∀ b, isPending s b c = false) :
    isResulted (run s ops) c = false ∧ ∀ b, isPending (run s ops) b c = false := by
  induction ops generalizing used s with
  | nil => exact ⟨hr, hn⟩
  | cons op ops ih =>
    rw [freshRun_cons] at hf
    rw [run_cons]
    refine ih (mem_usedAfter_single s op hu) hf.2 ?_ ?_
    · cases hb : isResulted (exec s op) c with
      | false => rfl
      | true =>
        obtain ⟨r, hr'⟩ := (isResulted_iff _ _).1 hb
        rcases exec_results_cases s op c r hr' with h | ⟨a, _, hp⟩
        · rw [(isResulted_iff s c).2 ⟨r, h⟩] at hr
          exact Bool.noConfusion hr
        · rw [hn a] at hp
          exact Bool.noConfusion hp
    · intro b
      cases hb : isPending (exec s op) b c with
      | false => rfl
      | true =>
        rcases exec_pending_new s op b c hb with h | h
        · rw [hn b] at h
          exact Bool.noConfusion h
        · exact absurd hu (hf.1 c h)

/-! ## Registrations along runs -/

theorem Register_result (s : Server) (req : RegisterRequest) (u : String) (now : Int) :
    (Register s req u now).2 = ({ ClientId := u, Success := true, Message := "注册成功" }, none) := by
  simp [Register, RegisterClient]

theorem registeredIds_cons (s : Server) (op : Op) (ops : List Op) :
    registeredIds s (op :: ops) = registeredIds s [op] ++ registeredIds (exec s op) ops := by
  simp [registeredIds]

theorem registeredIds_register (s : Server) (req : RegisterRequest) (u : String) (now : Int) :
    registeredIds s [Op.register req u now] = [u] := by
  simp [registeredIds, Register_result]

/-- The ids returned by one call are drawn by it. -/
theorem registeredIds_single_drawn (s : Server) (op : Op) (u : String)
    (h : u ∈ registeredIds s [op]) : op.drawn s = some u := by
  cases op with
  | register req uuid now =>
    rw [registeredIds_register] at h
    simp only [List.mem_singleton] at h
    simp [Op.drawn, h]
  | _ => simp [registeredIds] at h

theorem removedCount_cons (s : Server) (op : Op) (ops : List Op) :
    removedCount s (op :: ops) = removedCount s [op] + removedCount (exec s op) ops := by
  simp [removedCount]

/-- Along a run with fresh identifiers the returned client ids are pairwise
distinct, were not drawn before the run, and are among the drawn ids after it. -/
theorem registeredIds_fresh {used : List String} {s : Server} (ops : List Op)
    (hf : freshRun used s ops = true) :
    (registeredIds s ops).Nodup ∧
      ∀ u ∈ registeredIds s ops, u ∉ used ∧ u ∈ usedAfter used s ops := by
  induction ops generalizing used s with
  | nil => simp [registeredIds]
  | cons op ops ih =>
    rw [freshRun_cons] at hf
    obtain ⟨hn, hm⟩ := ih hf.2
    rw [registeredIds_cons, usedAfter_cons]
    have hhead : ∀ u ∈ registeredIds s [op], u ∉ used ∧ u ∈ usedAfter used s [op] := by
      intro u hu
      have hd := registeredIds_single_drawn s op u hu
      refine ⟨hf.1 u hd, ?_⟩
      rw [usedAfter_single, hd]
      exact List.mem_cons_self _ _
    refine ⟨?_, ?_⟩
    · rw [List.nodup_append]
      refine ⟨?_, hn, ?_⟩
      · cases op with
        | register req uuid now =>
          rw [registeredIds_register]
          exact List.nodup_singleton _
        | _ => simp [registeredIds]
      · intro u hu1 hu2
        exact (hm u hu2).1 (hhead u hu1).2
    · intro u hu
      rcases List.mem_append.1 hu with h | h
      · exact ⟨(hhead u h).1, mem_usedAfter _ _ (hhead u h).2⟩
      · exact ⟨fun hc => (hm u h).1 (mem_usedAfter_single s op hc), (hm u h).2⟩

theorem GoMap.length_set_of_get_none {V : Type} {k : String} (v : V) {m : GoMap V}
    (h : GoMap.get k m = none) : (GoMap.set k v m).length = m.length + 1 := by
  simp [GoMap.set, GoMap.delete_of_get_none h]

/-- One call changes the number of records by the registration it makes and
the removal it makes. -/
theorem clients_length_exec {used : List String} {s : Server} (hI : Inv used s) (op : Op)
    (hf : ∀ u, op.drawn s = some u → u ∉ used) :
    (exec s op).clients.length + removedCount s [op]
      = s.clients.length + (registeredIds s [op]).length := by
  cases op with
  | register req uuid now =>
    have hu : uuid ∉ used := hf uuid rfl
    have hg : GoMap.get uuid s.clients = none := by
      by_contra hne
      exact hu (hI.clients_used uuid hne)
    rw [registeredIds_register]
    simp [exec, Register_state, RegisterClient, InitClientCommands, removedCount,
      GoMap.length_set_of_get_none _ hg]
  | updateClientInfo clientID info now =>
    have := ((UpdateClientInfo_frame s clientID info now).2.2.2 hI.clients_nodup).2
    simp [exec, removedCount, registeredIds, this]
  | removeClient clientID =>
    rcases RemoveClient_cases s clientID with ⟨_, he⟩ | ⟨hc, he⟩
    · simp [exec, removedCount, registeredIds, he]
    · have := GoMap.length_delete_of_get hI.clients_nodup hc
      simp [exec, removedCount, registeredIds, he, this]
  | removeClientCommands clientID =>
    simp [exec, removedCount, registeredIds, RemoveClientCommands]
  | createCommand clientID cmdType content timeout uuid now =>
    simp [exec, removedCount, registeredIds, clients_CreateCommand]
  | sendCommandToClient clientID cmdType content timeout uuid now sendErr =>
    simp [exec, removedCount, registeredIds, SendCommandToClient_state, clients_CreateCommand]
  | saveCommandResult clientID cmdID result =>
    simp [exec, removedCount, registeredIds, clients_SaveCommandResult]
  | reportCommandResult result =>
    simp only [exec, removedCount, registeredIds, ReportCommandResult_state]
    split <;> simp [clients_SaveCommandResult]
  | receiveCommandsOpen clientID stream =>
    simp [exec, removedCount, registeredIds, (ReceiveCommands_open_frame s clientID stream).1]
  | receiveCommandsDone clientID =>
    simp [exec, removedCount, registeredIds, ReceiveCommands_done]

/-- Along a run with fresh identifiers the registry holds one record per
returned client id, minus one per successful removal. -/
theorem clients_length_run {used : List String} {s : Server} (ops : List Op) (hI : Inv used s)
    (hf : freshRun used s ops = true) :
    (run s ops).clients.length + removedCount s ops
      = s.clients.length + (registeredIds s ops).length := by
  induction ops generalizing used s with
  | nil => simp [run, removedCount, registeredIds]
  | cons op ops ih =>
    rw [freshRun_cons] at hf
    have h1 := clients_length_exec hI op hf.1
    have h2 := ih (Inv_exec hI op hf.1) hf.2
    rw [run_cons, removedCount_cons, registeredIds_cons, List.length_append]
    omega

theorem freshRun_append (used : List String) (s : Server) (ops₁ ops₂ : List Op) :
    freshRun used s (ops₁ ++ ops₂) = true ↔
      freshRun used s ops₁ = true ∧
        freshRun (usedAfter used s ops₁) (run s ops₁) ops₂ = true := by
  induction ops₁ generalizing used s with
  | nil => simp [freshRun, usedAfter, run]
  | cons op ops ih =>
    have hu : usedAfter used s (op :: ops)
        = usedAfter (usedAfter used s [op]) (exec s op) ops := usedAfter_cons used s op ops
    rw [List.cons_append, freshRun_cons, freshRun_cons, ih, run_cons, hu]
    tauto

/-- C10 (amended): along every run of server calls from the empty server in which
`uuid.New()` returns fresh identifiers, the client ids returned by the
`Register` calls are pairwise distinct, the registry holds one record per
returned id minus one per successful removal, and every `Register` call returns
an id that was not returned before and has no record and no pending set yet,
and leaves the record, pending set and stream handle of every other id as they
were. -/
theorem registered_ids_distinct (ops : List Op) (hf : freshRun [] NewServer ops = true) :
    (registeredIds NewServer ops).Nodup ∧
      (run NewServer ops).clients.length + removedCount NewServer ops
        = (registeredIds NewServer ops).length ∧
      ∀ pre req u now post, ops = pre ++ Op.register req u now :: post →
        (Register (run NewServer pre) req u now).2.1.ClientId = u ∧
        u ∉ registeredIds NewServer pre ∧
        GoMap.get u (run NewServer pre).clients = none ∧
        GoMap.get u (run NewServer pre).cmdManager.pendingCmds = none ∧
        (∀ a, a ≠ u →
          GoMap.get a (Register (run NewServer pre) req u now).1.clients
            = GoMap.get a (run NewServer pre).clients ∧
          GoMap.get a (Register (run NewServer pre) req u now).1.cmdManager.pendingCmds
            = GoMap.get a (run NewServer pre).cmdManager.pendingCmds) ∧
        (Register (run NewServer pre) req u now).1.clientStreams
          = (run NewServer pre).clientStreams := by
  refine ⟨(registeredIds_fresh ops hf).1, ?_, ?_⟩
  · simpa [NewServer] using clients_length_run ops Inv_NewServer hf
  · intro pre req u now post he
    subst he
    obtain ⟨hpre, hrest⟩ := (freshRun_append [] NewServer pre _).1 hf
    have hu : u ∉ usedAfter [] NewServer pre := ((freshRun_cons _ _ _ _).1 hrest).1 u rfl
    have hI := Inv_run pre Inv_NewServer hpre
    refine ⟨by rw [Register_result], ?_, ?_, ?_, ?_, ?_⟩
    · exact fun hm => hu ((registeredIds_fresh pre hpre).2 u hm).2
    · by_contra hne
      exact hu (hI.clients_used u hne)
    · by_contra hne
      exact hu (hI.pendkeys_used u hne)
    · intro a ha
      rw [Register_state]
      exact ⟨clients_RegisterClient _ req u now a ha, pendkeys_RegisterClient _ req u now a ha⟩
    · rw [Register_state]
      rfl

/-- Witness for C10 (amended): the sample run registers `A1`, `A2`, `A3` and removes `A1`. -/
theorem registered_ids_distinct_witness :
    freshRun [] NewServer opsLifetime = true ∧
      registeredIds NewServer opsLifetime = ["A1", "A2", "A3"] ∧
      removedCount NewServer opsLifetime = 1 ∧
      (run NewServer opsLifetime).clients.length = 2 ∧
      (registeredIds NewServer opsLifetime).Nodup :=
  ⟨by decide, by decide, by decide, by decide,
    (registered_ids_distinct opsLifetime (by decide)).1⟩

/-- Counterexample to C10: two `Register` calls that draw the same identifier
both succeed and return it; the second replaces the record of the first and
its pending set, dropping the pending command `C1`, and the registry holds one
record for two registrations and no removal. -/
theorem registered_id_repeated :
    registeredIds NewServer opsRepeatedId = ["A1", "A1"] ∧
      ¬ (registeredIds NewServer opsRepeatedId).Nodup ∧
      (run NewServer opsRepeatedId).clients.length = 1 ∧
      removedCount NewServer opsRepeatedId = 0 ∧
      GoMap.get "A1" (run NewServer (opsRepeatedId.take 2)).clients = some clientA1 ∧
      isPending (run NewServer (opsRepeatedId.take 2)) "A1" "C1" = true ∧
      GoMap.get "A1" (run NewServer opsRepeatedId).clients
        = some { clientA2 with ID := "A1", LastSeen := 103 } ∧
      GetPendingCommands (run NewServer opsRepeatedId) "A1" = [] := by
  decide

/-! ## Created commands along runs -/

/-- A pending command leaves the pending set of its client only when its result
is saved, when the client or its pending set is removed, or when the client id
is drawn again. -/
theorem exec_pending_lost (s : Server) (op : Op) (a u : String)
    (hp : isPending s a u = true) (hl : isPending (exec s op) a u = false) :
    isResulted (exec s op) u = true ∨
      (op = Op.removeClient a ∨ op = Op.removeClientCommands a) ∨ op.drawn s = some a := by
  have hno : ∀ {P : Prop}, isPending s a u = false → P := by
    intro P h
    rw [hp] at h
    exact Bool.noConfusion h
  have hcreate : ∀ {P : Prop} clientID cmdType content timeout uuid now,
      isPending (CreateCommand s clientID cmdType content timeout uuid now).1 a u = false →
      P := by
    intro P clientID cmdType content timeout uuid now h
    by_cases hv : ValidateClient s clientID = none
    · rw [isPending_CreateCommand cmdType content timeout uuid now hv] at h
      split at h
      · exact Bool.noConfusion h
      · exact hno h
    · rw [CreateCommand_invalid cmdType content timeout uuid now hv] at h
      exact hno h
  have hsave : ∀ clientID cmdID result,
      isPending (SaveCommandResult s clientID cmdID result).1 a u = false →
      isResulted (SaveCommandResult s clientID cmdID result).1 u = true := by
    intro clientID cmdID result h
    rcases SaveCommandResult_cases s clientID cmdID result with ⟨_, he, _⟩ | ⟨hp', _⟩
    · rw [he] at h
      exact hno h
    · rw [isPending_SaveCommandResult result hp'] at h
      rw [isResulted_SaveCommandResult result hp']
      split at h
      · rename_i hac
        rw [if_pos hac.2]
      · exact hno h
  cases op with
  | register req uuid now =>
    simp only [exec, Register_state, isPending_RegisterClient] at hl
    split at hl
    · rename_i ha
      exact Or.inr (Or.inr (by simp [Op.drawn, ha]))
    · exact hno hl
  | updateClientInfo clientID info now =>
    simp only [exec, isPending_UpdateClientInfo] at hl
    exact hno hl
  | removeClient clientID =>
    rcases RemoveClient_cases s clientID with ⟨_, he⟩ | ⟨hc, _⟩
    · simp only [exec, he] at hl
      exact hno hl
    · simp only [exec, isPending_RemoveClient hc] at hl
      split at hl
      · rename_i ha
        exact Or.inr (Or.inl (Or.inl (by rw [ha])))
      · exact hno hl
  | removeClientCommands clientID =>
    simp only [exec, isPending_RemoveClientCommands] at hl
    split at hl
    · rename_i ha
      exact Or.inr (Or.inl (Or.inr (by rw [ha])))
    · exact hno hl
  | createCommand clientID cmdType content timeout uuid now =>
    exact hcreate clientID cmdType content timeout uuid now hl
  | sendCommandToClient clientID cmdType content timeout uuid now sendErr =>
    simp only [exec, SendCommandToClient_state] at hl
    exact hcreate clientID cmdType content timeout uuid now hl
  | saveCommandResult clientID cmdID result => exact Or.inl (hsave clientID cmdID result hl)
  | reportCommandResult result =>
    simp only [exec, ReportCommandResult_state] at hl ⊢
    split at hl
    · rename_i hv
      rw [if_pos hv]
      exact Or.inl (hsave _ _ result hl)
    · exact hno hl
  | receiveCommandsOpen clientID stream =>
    simp only [exec, isPending_ReceiveCommands_open] at hl
    exact hno hl
  | receiveCommandsDone clientID => exact hno hl

/-- Every call keeps the pending table within the registry: a client with a
pending entry is registered. -/
theorem pendkeys_registered_exec {s : Server}
    (h : ∀ a, GoMap.get a s.cmdManager.pendingCmds ≠ none → GoMap.get a s.clients ≠ none)
    (op : Op) (a : String)
    (ha : GoMap.get a (exec s op).cmdManager.pendingCmds ≠ none) :
    GoMap.get a (exec s op).clients ≠ none := by
  have hcreate : ∀ clientID cmdType content timeout uuid now,
      GoMap.get a (CreateCommand s clientID cmdType content timeout uuid now).1.cmdManager.pendingCmds
        ≠ none →
      GoMap.get a (CreateCommand s clientID cmdType content timeout uuid now).1.clients ≠ none := by
    intro clientID cmdType content timeout uuid now ha
    rw [clients_CreateCommand]
    by_cases hv : ValidateClient s clientID = none
    · by_cases hac : a = clientID
      · subst hac
        exact (ValidateClient_eq_none_iff s a).1 hv
      · rw [pendkeys_CreateCommand s clientID cmdType content timeout uuid now a hac] at ha
        exact h a ha
    · rw [CreateCommand_invalid cmdType content timeout uuid now hv] at ha
      exact h a ha
  have hsave : ∀ clientID cmdID result,
      GoMap.get a (SaveCommandResult s clientID cmdID result).1.cmdManager.pendingCmds ≠ none →
      GoMap.get a (SaveCommandResult s clientID cmdID result).1.clients ≠ none := by
    intro clientID cmdID result ha
    rw [clients_SaveCommandResult]
    exact h a ((pendkeys_SaveCommandResult s clientID cmdID result a).1 ha)
  cases op with
  | register req uuid now =>
    simp only [exec, Register_state] at ha ⊢
    by_cases hau : a = uuid
    · subst hau
      simp [RegisterClient, InitClientCommands, GoMap.get_set_self]
    · rw [pendkeys_RegisterClient s req uuid now a hau] at ha
      rw [clients_RegisterClient s req uuid now a hau]
      exact h a ha
  | updateClientInfo clientID info now =>
    simp only [exec, (UpdateClientInfo_frame s clientID info now).1] at ha
    exact ((UpdateClientInfo_frame s clientID info now).2.2.1 a).2 (h a ha)
  | removeClient clientID =>
    by_cases hac : a = clientID
    · subst hac
      rcases RemoveClient_cases s a with ⟨_, he⟩ | ⟨_, he⟩
      · simp only [exec, he] at ha ⊢
        exact h a ha
      · simp [exec, he, GoMap.get_delete_self] at ha
    · simp only [exec, pendkeys_RemoveClient a hac] at ha
      simp only [exec, clients_RemoveClient a hac]
      exact h a ha
  | removeClientCommands clientID =>
    by_cases hac : a = clientID
    · subst hac
      simp [exec, RemoveClientCommands, GoMap.get_delete_self] at ha
    · simp only [exec, pendkeys_RemoveClientCommands s a hac] at ha
      exact h a ha
  | createCommand clientID cmdType content timeout uuid now =>
    exact hcreate clientID cmdType content timeout uuid now ha
  | sendCommandToClient clientID cmdType content timeout uuid now sendErr =>
    simp only [exec, SendCommandToClient_state] at ha ⊢
    exact hcreate clientID cmdType content timeout uuid now ha
  | saveCommandResult clientID cmdID result => exact hsave clientID cmdID result ha
  | reportCommandResult result =>
    simp only [exec, ReportCommandResult_state] at ha ⊢
    split
    · rename_i hv
      rw [if_pos hv] at ha
      exact hsave _ _ result ha
    · rename_i hv
      rw [if_neg hv] at ha
      exact h a ha
  | receiveCommandsOpen clientID stream =>
    simp only [exec, (ReceiveCommands_open_frame s clientID stream).2] at ha
    simp only [exec, (ReceiveCommands_open_frame s clientID stream).1]
    exact h a ha
  | receiveCommandsDone clientID => exact h a ha

theorem pendkeys_registered_run {s : Server}
    (h : ∀ a, GoMap.get a s.cmdManager.pendingCmds ≠ none → GoMap.get a s.clients ≠ none)
    (ops : List Op) (a : String)
    (ha : GoMap.get a (run s ops).cmdManager.pendingCmds ≠ none) :
    GoMap.get a (run s ops).clients ≠ none := by
  induction ops generalizing s with
  | nil => exact h a ha
  | cons op ops ih => exact ih (fun b hb => pendkeys_registered_exec h op b hb) ha

/-- Removing the client `a`, or its pending set, while `u` is pending for `a`
leaves `u` neither pending nor resulted, in that state and after every further
run with fresh identifiers. -/
theorem dropped_run {used : List String} {s : Server} (pre post : List Op) (op : Op)
    (a u : String) (hI : Inv used s)
    (hreg : ∀ b, GoMap.get b s.cmdManager.pendingCmds ≠ none → GoMap.get b s.clients ≠ none)
    (hf : freshRun used s (pre ++ op :: post) = true)
    (hop : op = Op.removeClient a ∨ op = Op.removeClientCommands a)
    (hp : isPending (run s pre) a u = true) :
    isResulted (run s (pre ++ op :: post)) u = false ∧
      ∀ b, isPending (run s (pre ++ op :: post)) b u = false := by
  obtain ⟨hpre, hrest⟩ := (freshRun_append used s pre (op :: post)).1 hf
  obtain ⟨hfresh, hpost⟩ := (freshRun_cons _ _ op post).1 hrest
  have hIt := Inv_run pre hI hpre
  have hu := mem_usedAfter_single (run s pre) op (hIt.pending_used a u hp)
  have hca : GoMap.get a (run s pre).clients ≠ none := by
    refine pendkeys_registered_run hreg pre a ?_
    obtain ⟨m, _, hm, _⟩ := (isPending_iff _ a u).1 hp
    rw [hm]
    simp
  have hres : (exec (run s pre) op).cmdManager.cmdResults = (run s pre).cmdManager.cmdResults := by
    rcases hop with e | e
    · rw [e]
      exact results_RemoveClient _ a
    · rw [e]
      rfl
  have hpa : isPending (exec (run s pre) op) a u = false := by
    rcases hop with e | e
    · rw [e]
      simp [exec, isPending_RemoveClient hca]
    · rw [e]
      simp [exec, isPending_RemoveClientCommands]
  have hnone : ∀ b, isPending (exec (run s pre) op) b u = false := by
    intro b
    cases hb : isPending (exec (run s pre) op) b u with
    | false => rfl
    | true =>
      rcases exec_pending_new (run s pre) op b u hb with h | h
      · rw [hIt.pending_unique b a u h hp, hpa] at hb
        exact Bool.noConfusion hb
      · exact absurd (hIt.pending_used a u hp) (hfresh u h)
  rw [run_append, run_cons]
  refine gone_run post u hu hpost ?_ hnone
  rw [isResulted_congr hres]
  exact hIt.disjoint a u hp

/-- From a state in which `u` is pending for `a`, along a run with fresh
identifiers: `u` stays pending for `a` alone and unresulted, or it is resulted
and pending nowhere, or `a` or its pending set was removed while `u` was
pending. -/
theorem tracked_run {used : List String} {s : Server} (ops : List Op) (a u : String)
    (hI : Inv used s) (hf : freshRun used s ops = true) (hp : isPending s a u = true) :
    (isPending (run s ops) a u = true ∧ isResulted (run s ops) u = false ∧
        ∀ b, isPending (run s ops) b u = true → b = a) ∨
      (isResulted (run s ops) u = true ∧ ∀ b, isPending (run s ops) b u = false) ∨
      (∃ pre op post, ops = pre ++ op :: post ∧
        (op = Op.removeClient a ∨ op = Op.removeClientCommands a) ∧
        isPending (run s pre) a u = true) := by
  induction ops generalizing used s with
  | nil => exact Or.inl ⟨hp, hI.disjoint a u hp, fun b hb => hI.pending_unique b a u hb hp⟩
  | cons op ops ih =>
    rw [freshRun_cons] at hf
    rw [run_cons]
    have hI' := Inv_exec hI op hf.1
    have hu : u ∈ usedAfter used s [op] := mem_usedAfter_single s op (hI.pending_used a u hp)
    have hnone : ∀ b, isPending (exec s op) a u = false → isPending (exec s op) b u = false := by
      intro b hl
      cases hb : isPending (exec s op) b u with
      | false => rfl
      | true =>
        rcases exec_pending_new s op b u hb with h | h
        · rw [hI.pending_unique b a u h hp, hl] at hb
          exact Bool.noConfusion hb
        · exact absurd (hI.pending_used a u hp) (hf.1 u h)
    cases hp' : isPending (exec s op) a u with
    | true =>
      rcases ih hI' hf.2 hp' with h | h | ⟨pre, op', post, he, hop, hpre⟩
      · exact Or.inl h
      · exact Or.inr (Or.inl h)
      · exact Or.inr (Or.inr ⟨op :: pre, op', post, by rw [he]; rfl, hop, hpre⟩)
    | false =>
      rcases exec_pending_lost s op a u hp hp' with h | h | h
      · obtain ⟨r, hr'⟩ := (isResulted_iff _ _).1 h
        have hset := settled_run ops u r hu hf.2 hr' (fun b => hnone b hp')
        exact Or.inr (Or.inl ⟨(isResulted_iff _ _).2 ⟨r, hset.1⟩, hset.2⟩)
      · exact Or.inr (Or.inr ⟨[], op, ops, rfl, h, hp⟩)
      · have ha : a ∈ used := hI.pendkeys_used a (by
          obtain ⟨m, _, hm, _⟩ := (isPending_iff s a u).1 hp
          rw [hm]
          simp)
        exact absurd ha (hf.1 a h)

/-- C5 (amended): for a command id `u` returned by a successful `CreateCommand`
for client `a` in a state reached from the empty server, after every further
run of server calls with fresh identifiers: `u` is never both pending and
resulted; if `RemoveClient a` or `RemoveClientCommands a` was called while `u`
was pending, `u` is in neither place; otherwise `u` is in exactly one of them,
pending for `a` alone or in the result store. -/
theorem created_command_tracked (ops₁ ops₂ : List Op) (a cmdType content : String)
    (timeout : Int) (u : String) (now : Int) (s' : Server)
    (hf₁ : freshRun [] NewServer ops₁ = true)
    (hu : u ∉ usedAfter [] NewServer ops₁)
    (hok : CreateCommand (run NewServer ops₁) a cmdType content timeout u now = (s', u, none))
    (hf₂ : freshRun (u :: usedAfter [] NewServer ops₁) s' ops₂ = true) :
    ((∃ pre op post, ops₂ = pre ++ op :: post ∧
          (op = Op.removeClient a ∨ op = Op.removeClientCommands a) ∧
          isPending (run s' pre) a u = true) →
        isResulted (run s' ops₂) u = false ∧ ∀ b, isPending (run s' ops₂) b u = false) ∧
      ((¬ ∃ pre op post, ops₂ = pre ++ op :: post ∧
          (op = Op.removeClient a ∨ op = Op.removeClientCommands a) ∧
          isPending (run s' pre) a u = true) →
        (isPending (run s' ops₂) a u = true ∧ isResulted (run s' ops₂) u = false ∧
            ∀ b, isPending (run s' ops₂) b u = true → b = a) ∨
          (isResulted (run s' ops₂) u = true ∧ ∀ b, isPending (run s' ops₂) b u = false)) ∧
      ¬ ((∃ b, isPending (run s' ops₂) b u = true) ∧ isResulted (run s' ops₂) u = true) := by
  have hs : s' = (CreateCommand (run NewServer ops₁) a cmdType content timeout u now).1 := by
    rw [hok]
  have hI := Inv_run ops₁ Inv_NewServer hf₁
  have hv : ValidateClient (run NewServer ops₁) a = none := by
    rw [← CreateCommand_error_iff (run NewServer ops₁) a cmdType content timeout u now, hok]
  have hI' : Inv (u :: usedAfter [] NewServer ops₁) s' := by
    rw [hs]
    exact Inv_CreateCommand hI cmdType content timeout now hv hu
  have hp : isPending s' a u = true := by
    rw [hs, isPending_CreateCommand cmdType content timeout u now hv, if_pos ⟨rfl, rfl⟩]
  have hreg : ∀ b, GoMap.get b s'.cmdManager.pendingCmds ≠ none →
      GoMap.get b s'.clients ≠ none := by
    intro b hb
    rw [hs] at hb ⊢
    exact pendkeys_registered_exec
      (pendkeys_registered_run (s := NewServer) (fun c hc => absurd rfl hc) ops₁)
      (Op.createCommand a cmdType content timeout u now) b hb
  refine ⟨?_, ?_, ?_⟩
  · rintro ⟨pre, op, post, he, hop, hpre⟩
    subst he
    exact dropped_run pre post op a u hI' hreg hf₂ hop hpre
  · intro hnot
    rcases tracked_run ops₂ a u hI' hf₂ hp with h | h | h
    · exact Or.inl h
    · exact Or.inr h
    · exact absurd h hnot
  · rintro ⟨⟨b, hb⟩, hr⟩
    have hd := (Inv_run ops₂ hI' hf₂).disjoint b u hb
    rw [hr] at hd
    exact Bool.noConfusion hd

/-- Witness for C5 (amended): `C1` is created for `A1` and `A1` is then removed
while `C1` is pending; `C1` ends in neither place. -/
theorem created_command_tracked_witness :
    freshRun [] NewServer opsRegistered = true ∧
      "C1" ∉ usedAfter [] NewServer opsRegistered ∧
      CreateCommand (run NewServer opsRegistered) "A1" "shell" "echo hi" 5 "C1" 102
        = (srvCreated, "C1", none) ∧
      freshRun ("C1" :: usedAfter [] NewServer opsRegistered) srvCreated
        [Op.removeClient "A1"] = true ∧
      isPending (run srvCreated []) "A1" "C1" = true ∧
      isResulted (run srvCreated [Op.removeClient "A1"]) "C1" = false ∧
      ∀ b, isPending (run srvCreated [Op.removeClient "A1"]) b "C1" = false := by
  refine ⟨by decide, by decide, by decide, by decide, by decide, ?_⟩
  exact (created_command_tracked opsRegistered [Op.removeClient "A1"] "A1" "shell" "echo hi" 5
    "C1" 102 srvCreated (by decide) (by decide) (by decide) (by decide)).1
    ⟨[], Op.removeClient "A1", [], rfl, Or.inl rfl, by decide⟩

/-! ## Telemetry updates -/

/-- A call other than `UpdateClientInfo` that does not draw the id of an
existing record leaves the record as it is, or is the `RemoveClient` of that id. -/
theorem exec_record_cases (s : Server) (op : Op) (a : String) (client : ClientInfo)
    (hc : GoMap.get a s.clients = some client)
    (hop : ∀ id info now, op ≠ Op.updateClientInfo id info now)
    (hd : op.drawn s ≠ some a) :
    GoMap.get a (exec s op).clients = some client ∨
      (op = Op.removeClient a ∧ GoMap.get a (exec s op).clients = none) := by
  cases op with
  | register req uuid now =>
    have ha : a ≠ uuid := fun e => hd (by simp [Op.drawn, e])
    exact Or.inl (by simpa only [exec, Register_state, clients_RegisterClient s req uuid now a ha]
      using hc)
  | updateClientInfo clientID info now => exact absurd rfl (hop clientID info now)
  | removeClient clientID =>
    by_cases ha : a = clientID
    · subst ha
      right
      obtain ⟨s', h1, h2, _⟩ := (RemoveClient_spec s a).1 (by rw [hc]; simp)
      exact ⟨rfl, by simp only [exec, h1, h2]⟩
    · exact Or.inl (by simpa only [exec, clients_RemoveClient a ha] using hc)
  | removeClientCommands clientID => exact Or.inl hc
  | createCommand clientID cmdType content timeout uuid now =>
    exact Or.inl (by simpa only [exec, clients_CreateCommand] using hc)
  | sendCommandToClient clientID cmdType content timeout uuid now sendErr =>
    exact Or.inl (by simpa only [exec, SendCommandToClient_state, clients_CreateCommand] using hc)
  | saveCommandResult clientID cmdID result =>
    exact Or.inl (by simpa only [exec, clients_SaveCommandResult] using hc)
  | reportCommandResult result =>
    left
    simp only [exec, ReportCommandResult_state]
    split
    · simpa only [clients_SaveCommandResult] using hc
    · exact hc
  | receiveCommandsOpen clientID stream =>
    exact Or.inl (by
      simpa only [exec, (ReceiveCommands_open_frame s clientID stream).1] using hc)
  | receiveCommandsDone clientID => exact Or.inl hc

/-- C11: on a registered id `UpdateClientInfo` returns no error and changes only
that record's snapshot and last-seen time; every other record, the command
manager (pending sets and results) and the stream handles are unchanged. On an
unregistered id it returns an error and the state is unchanged. Along runs from
the empty server with fresh identifiers, a call other than `UpdateClientInfo`
leaves every existing record as it is, unless it is the `RemoveClient` of
that id, which deletes it. -/
theorem UpdateClientInfo_spec (s : Server) (clientID : String) (info : Option SystemInfo)
    (now : Int) :
    (∀ client, GoMap.get clientID s.clients = some client →
      ∃ s', UpdateClientInfo s clientID info now = (s', none) ∧
        GoMap.get clientID s'.clients =
          some { ID := client.ID, Hostname := client.Hostname, IPAddress := client.IPAddress,
                 MACAddress := client.MACAddress, OSInfo := client.OSInfo, LastSeen := now,
                 Info := info } ∧
        (∀ a, a ≠ clientID → GoMap.get a s'.clients = GoMap.get a s.clients) ∧
        s'.cmdManager = s.cmdManager ∧ s'.clientStreams = s.clientStreams) ∧
    (GoMap.get clientID s.clients = none →
      UpdateClientInfo s clientID info now = (s, some ("未知的客户端ID: " ++ clientID))) ∧
    (∀ ops op a client, freshRun [] NewServer (ops ++ [op]) = true →
      (∀ id i n, op ≠ Op.updateClientInfo id i n) →
      GoMap.get a (run NewServer ops).clients = some client →
      GoMap.get a (run NewServer (ops ++ [op])).clients = some client ∨
        (op = Op.removeClient a ∧ GoMap.get a (run NewServer (ops ++ [op])).clients = none)) := by
  refine ⟨?_, ?_, ?_⟩
  · intro client hc
    refine ⟨(UpdateClientInfo s clientID info now).1, by simp [UpdateClientInfo, hc], ?_, ?_, ?_, ?_⟩
    · simp [UpdateClientInfo, hc, GoMap.get_set_self]
    · intro a ha
      simp [UpdateClientInfo, hc, GoMap.get_set_ne ha]
    · simp [UpdateClientInfo, hc]
    · simp [UpdateClientInfo, hc]
  · intro hc
    simp [UpdateClientInfo, hc]
  · intro ops op a client hf hop hc
    obtain ⟨hpre, hlast⟩ := (freshRun_append [] NewServer ops [op]).1 hf
    have hI := Inv_run ops Inv_NewServer hpre
    have hfresh := ((freshRun_cons _ _ op []).1 hlast).1
    have hd : op.drawn (run NewServer ops) ≠ some a := by
      intro h
      exact hfresh a h (hI.clients_used a (by rw [hc]; simp))
    rw [run_append]
    exact exec_record_cases (run NewServer ops) op a client hc hop hd

/-- Witness for C11: a telemetry update for `A1` in the sample state, one for the
unknown id `ZZZ`, and the report of `resultC1`, which leaves the record of `A2`. -/
theorem UpdateClientInfo_spec_witness :
    (∃ s', UpdateClientInfo srvDispatched "A1" (some snapshotA) 200 = (s', none) ∧
        GoMap.get "A1" s'.clients = some { clientA1 with LastSeen := 200, Info := some snapshotA } ∧
        s'.cmdManager = srvDispatched.cmdManager) ∧
      UpdateClientInfo srvDispatched "ZZZ" (some snapshotA) 200
        = (srvDispatched, some ("未知的客户端ID: " ++ "ZZZ")) ∧
      GoMap.get "A2" (run NewServer (opsDispatched ++ [Op.reportCommandResult resultC1])).clients
        = some clientA2 := by
  have h := UpdateClientInfo_spec srvDispatched "A1" (some snapshotA) 200
  obtain ⟨s', h1, h2, _, h4, _⟩ := h.1 clientA1 (by decide)
  have hz := (UpdateClientInfo_spec srvDispatched "ZZZ" (some snapshotA) 200).2.1 (by decide)
  have h3 := h.2.2 opsDispatched (Op.reportCommandResult resultC1) "A2" clientA2 (by decide)
    (by intro id i n e; cases e) (by decide)
  rcases h3 with h3 | ⟨h3, _⟩
  · exact ⟨⟨s', h1, h2, h4⟩, hz, h3⟩
  · cases h3

/-! ## Replay of pending commands -/

theorem GoMap.get_of_mem_nodup {V : Type} {k : String} {v : V} {m : GoMap V}
    (hn : (GoMap.keys m).Nodup) (h : (k, v) ∈ m) : GoMap.get k m = some v := by
  induction m with
  | nil => simp at h
  | cons p t ih =>
    obtain ⟨k', v'⟩ := p
    have hn' : k' ∉ GoMap.keys t ∧ (GoMap.keys t).Nodup := by
      simpa [GoMap.keys] using hn
    rcases List.mem_cons.1 h with h | h
    · cases h
      simp [GoMap.get]
    · have hk : k' ≠ k := by
        intro e
        subst e
        exact hn'.1 (List.mem_map.2 ⟨(k', v), h, rfl⟩)
      simp [GoMap.get, hk, ih hn'.2 h]

theorem GoMap.mem_delete {V : Type} {k : String} {p : String × V} {m : GoMap V}
    (h : p ∈ GoMap.delete k m) : p ∈ m :=
  (List.mem_filter.1 h).1

theorem PendingWF_NewServer : PendingWF NewServer where
  nodup := by intro a m h; simp [NewServer, GoMap.get_nil] at h
  keyed := by intro a m h; simp [NewServer, GoMap.get_nil] at h

/-- Well-formedness depends on the pending table only. -/
theorem PendingWF_congr {s s' : Server} (hW : PendingWF s)
    (h : s'.cmdManager.pendingCmds = s.cmdManager.pendingCmds) : PendingWF s' where
  nodup := by rw [h]; exact hW.nodup
  keyed := by rw [h]; exact hW.keyed

/-- Storing a well-formed inner map keeps the table well-formed. -/
theorem PendingWF_set {s s' : Server} (hW : PendingWF s) (a : String) (m : GoMap Command)
    (h : s'.cmdManager.pendingCmds = GoMap.set a m s.cmdManager.pendingCmds)
    (hn : (GoMap.keys m).Nodup) (hk : ∀ p ∈ m, p.2.CommandId = p.1) : PendingWF s' := by
  have key : ∀ b m', GoMap.get b s'.cmdManager.pendingCmds = some m' →
      m' = m ∨ GoMap.get b s.cmdManager.pendingCmds = some m' := by
    intro b m' hb
    rw [h] at hb
    by_cases hba : b = a
    · subst hba
      rw [GoMap.get_set_self] at hb
      exact Or.inl (Option.some.inj hb).symm
    · rw [GoMap.get_set_ne hba] at hb
      exact Or.inr hb
  exact
    { nodup := by
        intro b m' hb
        rcases key b m' hb with e | hb'
        · rw [e]; exact hn
        · exact hW.nodup b m' hb'
      keyed := by
        intro b m' hb
        rcases key b m' hb with e | hb'
        · rw [e]; exact hk
        · exact hW.keyed b m' hb' }

theorem PendingWF_CreateCommand {s : Server} (hW : PendingWF s) (clientID cmdType content : String)
    (timeout : Int) (uuid : String) (now : Int) :
    PendingWF (CreateCommand s clientID cmdType content timeout uuid now).1 := by
  by_cases hv : ValidateClient s clientID = none
  · cases hp : GoMap.get clientID s.cmdManager.pendingCmds with
    | none =>
      refine PendingWF_set hW clientID (GoMap.set uuid ⟨uuid, cmdType, content, timeout, now⟩ [])
        (by simp [CreateCommand, hv, hp]) ?_ ?_
      · exact GoMap.nodup_keys_set uuid _ (by simp [GoMap.keys])
      · intro p hpm
        simp [GoMap.set, GoMap.delete] at hpm
        rw [hpm]
    | some m =>
      refine PendingWF_set hW clientID (GoMap.set uuid ⟨uuid, cmdType, content, timeout, now⟩ m)
        (by simp [CreateCommand, hv, hp]) ?_ ?_
      · exact GoMap.nodup_keys_set uuid _ (hW.nodup clientID m hp)
      · intro p hpm
        rcases List.mem_cons.1 hpm with e | hmem
        · rw [e]
        · exact hW.keyed clientID m hp p (GoMap.mem_delete hmem)
  · rw [CreateCommand_invalid cmdType content timeout uuid now hv]
    exact hW

theorem PendingWF_SaveCommandResult {s : Server} (hW : PendingWF s) (clientID cmdID : String)
    (result : CommandResult) : PendingWF (SaveCommandResult s clientID cmdID result).1 := by
  rcases SaveCommandResult_cases s clientID cmdID result with ⟨_, he, _⟩ | ⟨hp, _⟩
  · rw [he]
    exact hW
  · obtain ⟨m, cmd, hm, hc⟩ := (isPending_iff s clientID cmdID).1 hp
    refine PendingWF_set hW clientID (GoMap.delete cmdID m)
      (by rw [SaveCommandResult_of_pending result hm hc]) ?_ ?_
    · exact GoMap.nodup_keys_delete cmdID (hW.nodup clientID m hm)
    · exact fun p hpm => hW.keyed clientID m hm p (GoMap.mem_delete hpm)

theorem PendingWF_RemoveClient {s : Server} (hW : PendingWF s) (clientID : String) :
    PendingWF (RemoveClient s clientID).1 := by
  have key : ∀ b m, GoMap.get b (RemoveClient s clientID).1.cmdManager.pendingCmds = some m →
      GoMap.get b s.cmdManager.pendingCmds = some m := by
    intro b m hb
    by_cases hbc : b = clientID
    · subst hbc
      rcases RemoveClient_cases s b with ⟨_, he⟩ | ⟨_, he⟩
      · rwa [he] at hb
      · rw [he] at hb
        simp [GoMap.get_delete_self] at hb
    · rwa [pendkeys_RemoveClient b hbc] at hb
  exact
    { nodup := fun b m hb => hW.nodup b m (key b m hb)
      keyed := fun b m hb => hW.keyed b m (key b m hb) }

/-- Every call keeps the pending table well-formed. -/
theorem PendingWF_exec {s : Server} (hW : PendingWF s) (op : Op) : PendingWF (exec s op) := by
  cases op with
  | register req uuid now =>
    simp only [exec, Register_state]
    exact PendingWF_set hW uuid [] rfl (by simp [GoMap.keys]) (by simp)
  | updateClientInfo clientID info now =>
    exact PendingWF_congr hW (by simp only [exec, (UpdateClientInfo_frame s clientID info now).1])
  | removeClient clientID => exact PendingWF_RemoveClient hW clientID
  | removeClientCommands clientID =>
    exact
      { nodup := by
          intro b m hb
          by_cases hbc : b = clientID
          · subst hbc
            simp [exec, RemoveClientCommands, GoMap.get_delete_self] at hb
          · rw [show exec s (Op.removeClientCommands clientID) = RemoveClientCommands s clientID
              from rfl, pendkeys_RemoveClientCommands s b hbc] at hb
            exact hW.nodup b m hb
        keyed := by
          intro b m hb
          by_cases hbc : b = clientID
          · subst hbc
            simp [exec, RemoveClientCommands, GoMap.get_delete_self] at hb
          · rw [show exec s (Op.removeClientCommands clientID) = RemoveClientCommands s clientID
              from rfl, pendkeys_RemoveClientCommands s b hbc] at hb
            exact hW.keyed b m hb }
  | createCommand clientID cmdType content timeout uuid now =>
    exact PendingWF_CreateCommand hW clientID cmdType content timeout uuid now
  | sendCommandToClient clientID cmdType content timeout uuid now sendErr =>
    simp only [exec, SendCommandToClient_state]
    exact PendingWF_CreateCommand hW clientID cmdType content timeout uuid now
  | saveCommandResult clientID cmdID result =>
    exact PendingWF_SaveCommandResult hW clientID cmdID result
  | reportCommandResult result =>
    simp only [exec, ReportCommandResult_state]
    split
    · exact PendingWF_SaveCommandResult hW _ _ result
    · exact hW
  | receiveCommandsOpen clientID stream =>
    exact PendingWF_congr hW
      (by simp only [exec, (ReceiveCommands_open_frame s clientID stream).2])
  | receiveCommandsDone clientID => exact PendingWF_congr hW rfl

theorem PendingWF_run {s : Server} (hW : PendingWF s) (ops : List Op) : PendingWF (run s ops) := by
  induction ops generalizing s with
  | nil => exact hW
  | cons op ops ih => exact ih (PendingWF_exec hW op)

theorem GetCommand_eq_some_iff (s : Server) (a c : String) (cmd : Command) :
    GetCommand s a c = (some cmd, none) ↔
      ∃ m, GoMap.get a s.cmdManager.pendingCmds = some m ∧ GoMap.get c m = some cmd := by
  unfold GetCommand
  cases hp : GoMap.get a s.cmdManager.pendingCmds with
  | none => simp
  | some m =>
    cases hc : GoMap.get c m with
    | none => simp [hc]
    | some cmd' => simp [hc]

theorem GoMap.mem_values_iff {V : Type} {m : GoMap V} (hn : (GoMap.keys m).Nodup) (v : V) :
    v ∈ GoMap.values m ↔ ∃ k, GoMap.get k m = some v := by
  constructor
  · intro h
    obtain ⟨p, hp, rfl⟩ := List.mem_map.1 h
    exact ⟨p.1, GoMap.get_of_mem_nodup hn hp⟩
  · rintro ⟨k, hk⟩
    exact List.mem_map.2 ⟨(k, v), GoMap.mem_of_get hk, rfl⟩

theorem GoMap.values_ids_of_keyed (m : GoMap Command) (hk : ∀ p ∈ m, p.2.CommandId = p.1) :
    (GoMap.values m).map Command.CommandId = GoMap.keys m := by
  induction m with
  | nil => rfl
  | cons p t ih =>
    have h1 := hk p (List.mem_cons_self _ _)
    have h2 := ih (fun q hq => hk q (List.mem_cons_of_mem _ hq))
    simp only [GoMap.values, GoMap.keys, List.map_cons] at h2 ⊢
    rw [h1, h2]

/-- C12: in every state reached from the empty server with fresh identifiers,
the list `GetPendingCommands a` contains exactly the commands pending for `a`,
with pairwise distinct command ids; each of them is pending for `a` alone and
has no stored result; the list is empty when `a` has no pending entry; and
`ReceiveCommands` on a registered `a` takes exactly this list to send on the
newly registered stream. -/
theorem GetPendingCommands_spec (ops : List Op) (hf : freshRun [] NewServer ops = true)
    (a : String) :
    (∀ cmd, cmd ∈ GetPendingCommands (run NewServer ops) a ↔
        ∃ c, GetCommand (run NewServer ops) a c = (some cmd, none)) ∧
      ((GetPendingCommands (run NewServer ops) a).map Command.CommandId).Nodup ∧
      (∀ cmd ∈ GetPendingCommands (run NewServer ops) a,
        isPending (run NewServer ops) a cmd.CommandId = true ∧
        (∀ b, isPending (run NewServer ops) b cmd.CommandId = true → b = a) ∧
        isResulted (run NewServer ops) cmd.CommandId = false) ∧
      (GoMap.get a (run NewServer ops).cmdManager.pendingCmds = none →
        GetPendingCommands (run NewServer ops) a = []) ∧
      (∀ stream, GoMap.get a (run NewServer ops).clients ≠ none →
        (ReceiveCommands_open (run NewServer ops) a stream).2
          = (none, GetPendingCommands (run NewServer ops) a)) := by
  have hI := Inv_run ops Inv_NewServer hf
  have hW := PendingWF_run PendingWF_NewServer ops
  generalize run NewServer ops = s at hI hW ⊢
  refine ⟨?_, ?_, ?_, ?_, ?_⟩
  · intro cmd
    unfold GetPendingCommands
    cases hp : GoMap.get a s.cmdManager.pendingCmds with
    | none => simp [GetCommand_eq_some_iff, hp]
    | some m => simp [GetCommand_eq_some_iff, hp, GoMap.mem_values_iff (hW.nodup a m hp)]
  · unfold GetPendingCommands
    cases hp : GoMap.get a s.cmdManager.pendingCmds with
    | none => simp
    | some m =>
      simp only
      rw [GoMap.values_ids_of_keyed m (hW.keyed a m hp)]
      exact hW.nodup a m hp
  · intro cmd hcmd
    have hpend : isPending s a cmd.CommandId = true := by
      unfold GetPendingCommands at hcmd
      cases hp : GoMap.get a s.cmdManager.pendingCmds with
      | none => simp [hp] at hcmd
      | some m =>
        rw [hp] at hcmd
        obtain ⟨p, hpm, rfl⟩ := List.mem_map.1 hcmd
        rw [isPending_iff]
        refine ⟨m, p.2, hp, ?_⟩
        rw [hW.keyed a m hp p hpm]
        exact GoMap.get_of_mem_nodup (hW.nodup a m hp) hpm
    exact ⟨hpend, fun b hb => hI.pending_unique b a _ hb hpend, hI.disjoint a _ hpend⟩
  · intro hp
    simp [GetPendingCommands, hp]
  · intro stream hc
    have hv := (ValidateClient_eq_none_iff s a).2 hc
    simp [ReceiveCommands_open, hv, GetPendingCommands]

/-- Witness for C12: in the sample state exactly `C1` is replayed to `A1`, and
nothing to `A2`. -/
theorem GetPendingCommands_spec_witness :
    freshRun [] NewServer opsDispatched = true ∧
      GetPendingCommands (run NewServer opsDispatched) "A1" = [commandC1] ∧
      GetPendingCommands (run NewServer opsDispatched) "A2" = [] ∧
      (ReceiveCommands_open (run NewServer opsDispatched) "A1" 8).2
        = (none, GetPendingCommands (run NewServer opsDispatched) "A1") :=
  ⟨by decide, by decide, by decide,
    (GetPendingCommands_spec opsDispatched (by decide) "A1").2.2.2.2 8 (by decide)⟩

/-! ## Dispatch of a command -/

theorem GetCommand_CreateCommand {s : Server} {clientID : String} (cmdType content : String)
    (timeout : Int) (uuid : String) (now : Int) (hv : ValidateClient s clientID = none) :
    GetCommand (CreateCommand s clientID cmdType content timeout uuid now).1 clientID uuid
      = (some ⟨uuid, cmdType, content, timeout, now⟩, none) := by
  simp [GetCommand, CreateCommand, hv, GoMap.get_set_self]

/-- C13: for a registered client `SendCommandToClient` returns the drawn command
id with a nil error, and afterwards that id is pending for the client with
exactly the given kind, payload and timeout, whether or not a stream handle
exists and whatever `stream.Send` returns; the command is pushed exactly when a
handle is registered for the client, on that handle. -/
theorem SendCommandToClient_registered (s : Server) (clientID cmdType content : String)
    (timeout : Int) (uuid : String) (now : Int) (sendErr : Option String)
    (hc : GoMap.get clientID s.clients ≠ none) :
    ∃ s', SendCommandToClient s clientID cmdType content timeout uuid now sendErr =
        (s', { cmdID := uuid, err := none,
               pushed := (GoMap.get clientID s.clientStreams).map
                 (fun stream => (stream, ⟨uuid, cmdType, content, timeout, now⟩)),
               sendFailureLogged := (GoMap.get clientID s.clientStreams).isSome && sendErr.isSome }) ∧
      GetCommand s' clientID uuid = (some ⟨uuid, cmdType, content, timeout, now⟩, none) ∧
      (⟨uuid, cmdType, content, timeout, now⟩ : Command) ∈ GetPendingCommands s' clientID ∧
      isPending s' clientID uuid = true ∧
      (∀ e, (SendCommandToClient s clientID cmdType content timeout uuid now e).1 = s') := by
  have hv := (ValidateClient_eq_none_iff s clientID).2 hc
  have hg := GetCommand_CreateCommand cmdType content timeout uuid now hv
  have hid := CreateCommand_id cmdType content timeout uuid now hv
  have hst := streams_CreateCommand s clientID cmdType content timeout uuid now
  refine ⟨(CreateCommand s clientID cmdType content timeout uuid now).1, ?_, hg, ?_, ?_, ?_⟩
  · rcases hcc : CreateCommand s clientID cmdType content timeout uuid now with ⟨s1, id1, e1⟩
    rw [hcc] at hg hid hst
    simp only at hg hid hst
    cases hid
    unfold SendCommandToClient
    rw [hcc]
    simp only [hst]
    cases GoMap.get clientID s.clientStreams with
    | none => simp
    | some stream => simp [hg]
  · obtain ⟨m, hm, hcm⟩ := (GetCommand_eq_some_iff _ _ _ _).1 hg
    simp only [GetPendingCommands, hm]
    exact List.mem_map.2 ⟨(uuid, _), GoMap.mem_of_get hcm, rfl⟩
  · rw [isPending_CreateCommand cmdType content timeout uuid now hv, if_pos ⟨rfl, rfl⟩]
  · intro e
    exact SendCommandToClient_state s clientID cmdType content timeout uuid now e

/-- Witness for C13: a dispatch to `A1`, which has stream `7`, with a failing
push, and one to `A2`, which has no stream. -/
theorem SendCommandToClient_registered_witness :
    GoMap.get "A1" srvDispatched.clients ≠ none ∧
      (SendCommandToClient srvDispatched "A1" "shell" "ls" 5 "C2" 104 (some "broken pipe")).2
        = { cmdID := "C2", err := none, pushed := some (7, ⟨"C2", "shell", "ls", 5, 104⟩),
            sendFailureLogged := true } ∧
      (SendCommandToClient srvDispatched "A2" "shell" "ls" 5 "C2" 104 none).2
        = { cmdID := "C2", err := none, pushed := none, sendFailureLogged := false } ∧
      ∃ s', SendCommandToClient srvDispatched "A1" "shell" "ls" 5 "C2" 104 (some "broken pipe")
          = (s', { cmdID := "C2", err := none,
                   pushed := (GoMap.get "A1" srvDispatched.clientStreams).map
                     (fun stream => (stream, ⟨"C2", "shell", "ls", 5, 104⟩)),
                   sendFailureLogged :=
                     (GoMap.get "A1" srvDispatched.clientStreams).isSome &&
                       (some "broken pipe").isSome }) ∧
        isPending s' "A1" "C2" = true := by
  refine ⟨by decide, by decide, by decide, ?_⟩
  obtain ⟨s', h1, _, _, h4, _⟩ :=
    SendCommandToClient_registered srvDispatched "A1" "shell" "ls" 5 "C2" 104
      (some "broken pipe") (by decide)
  exact ⟨s', h1, h4⟩

/-! ## Replies of the RPC handlers -/

theorem SendSystemInfo_unknown {s : Server} {clientID : String} (info : Option SystemInfo)
    (now : Int) (h : GoMap.get clientID s.clients = none) :
    SendSystemInfo s clientID info now =
      (s, some ({ Received := false, Message := "未知的客户端ID: " ++ clientID },
        some ("未知的客户端ID: " ++ clientID))) := by
  simp [SendSystemInfo, UpdateClientInfo, h]

/-- Counterexample to C14: a telemetry push for the unknown id `ZZZ` and a
report by `A2` of a command that is not pending for it are both answered with
`Received = false` and a non-nil error. -/
theorem domain_rejection_returns_error :
    GoMap.get "ZZZ" NewServer.clients = none ∧
      (SendSystemInfo NewServer "ZZZ" (some snapshotA) 0).2
        = some ({ Received := false, Message := "未知的客户端ID: ZZZ" },
            some "未知的客户端ID: ZZZ") ∧
      GoMap.get "A2" srvDispatched.clients ≠ none ∧
      isPending srvDispatched "A2" "C1" = false ∧
      (ReportCommandResult srvDispatched resultC1byA2).2
        = ({ Received := false, Message := "未知的命令ID: C1" }, some "未知的命令ID: C1") ∧
      (ReportCommandResult srvDispatched resultC1byA2).2.2 ≠ none := by
  decide

/-- C14 (amended): when `SendSystemInfo` or `ReportCommandResult` rejects a
request for a domain reason (unknown client id, or command not pending for that
client), it returns the response with `Received = false` and the message
together with a non-nil error carrying the same message, and leaves the state
unchanged. -/
theorem domain_rejection_response (s : Server) (clientID : String) (info : Option SystemInfo)
    (now : Int) (result : CommandResult) :
    (GoMap.get clientID s.clients = none →
      SendSystemInfo s clientID info now =
        (s, some ({ Received := false, Message := "未知的客户端ID: " ++ clientID },
          some ("未知的客户端ID: " ++ clientID)))) ∧
    (GoMap.get result.ClientId s.clients = none →
      ReportCommandResult s result =
        (s, { Received := false, Message := "未知的客户端ID: " ++ result.ClientId },
          some ("未知的客户端ID: " ++ result.ClientId))) ∧
    (isPending s result.ClientId result.CommandId = false →
      ∃ err, ReportCommandResult s result
        = (s, { Received := false, Message := err }, some err)) := by
  refine ⟨SendSystemInfo_unknown info now, ?_, ?_⟩
  · intro h
    simp [ReportCommandResult, ValidateClient_of_none h]
  · intro h
    cases hv : ValidateClient s result.ClientId with
    | some err => exact ⟨err, by simp [ReportCommandResult, hv]⟩
    | none =>
      obtain ⟨err, he⟩ := SaveCommandResult_not_pending result h
      exact ⟨err, by simp [ReportCommandResult, hv, he]⟩

/-- Witness for C14 (amended): the unknown id `ZZZ` and the report by `A2` of
`C1`, which is pending for `A1` only. -/
theorem domain_rejection_response_witness :
    GoMap.get "ZZZ" srvDispatched.clients = none ∧
      isPending srvDispatched resultC1byA2.ClientId resultC1byA2.CommandId = false ∧
      SendSystemInfo srvDispatched "ZZZ" (some snapshotA) 200 =
        (srvDispatched, some ({ Received := false, Message := "未知的客户端ID: " ++ "ZZZ" },
          some ("未知的客户端ID: " ++ "ZZZ"))) ∧
      ∃ err, ReportCommandResult srvDispatched resultC1byA2
        = (srvDispatched, { Received := false, Message := err }, some err) :=
  ⟨by decide, by decide,
    (domain_rejection_response srvDispatched "ZZZ" (some snapshotA) 200 resultC1byA2).1
      (by decide),
    (domain_rejection_response srvDispatched "ZZZ" (some snapshotA) 200 resultC1byA2).2.2
      (by decide)⟩

/-- C19 (failing input): a telemetry push for the registered `A1` whose
snapshot is absent, or lacks its cpu sub-record, stores the snapshot and the
last-seen time and then does not return; with both sub-records present it
returns `Received = true`. -/
theorem SendSystemInfo_nil_snapshot_faults :
    GoMap.get "A1" srvDispatched.clients = some clientA1 ∧
      (SendSystemInfo srvDispatched "A1" none 200).2 = none ∧
      GoMap.get "A1" (SendSystemInfo srvDispatched "A1" none 200).1.clients
        = some { clientA1 with LastSeen := 200, Info := none } ∧
      (SendSystemInfo srvDispatched "A1" (some snapshotNoCpu) 200).2 = none ∧
      GoMap.get "A1" (SendSystemInfo srvDispatched "A1" (some snapshotNoCpu) 200).1.clients
        = some { clientA1 with LastSeen := 200, Info := some snapshotNoCpu } ∧
      (SendSystemInfo srvDispatched "A1" (some snapshotA) 200).2
        = some ({ Received := true, Message := "信息已接收" }, none) := by
  decide

/-- C18 (failing input): `A1` opens stream `1`, then stream `2`, which replaces
it in the handle table; when the displaced stream `1` terminates, the entry of
`A1` is deleted although stream `2` is still open, and the next command for
`A1` is pushed on no stream. -/
theorem displaced_stream_done_removes_newer :
    GoMap.get "A1" (run NewServer opsReconnected).clientStreams = some 2 ∧
      GoMap.get "A1" (run NewServer opsDisplacedDone).clientStreams = none ∧
      (SendCommandToClient (run NewServer opsDisplacedDone) "A1" "shell" "ls" 5 "C1" 103
        none).2 = { cmdID := "C1", err := none, pushed := none, sendFailureLogged := false } := by
  decide

/-! ## Agent runtime -/

/-- C16: the client's `ReportCommandResult` stops at the first attempt whose
reply has no error and `Received = true`; it makes at most three attempts, and
exactly three when every attempt fails; it pauses once (2 seconds) after each
failed attempt, the last one included, and after giving up makes no further
attempt. Every attempt sends the given result. -/
theorem Client_ReportCommandResult_spec (rpc : Nat → ReportReply) (result : CommandResult) :
    ((rpc 0).accepted = true →
      Client.ReportCommandResult rpc result = [.rpc 0 result, .logSuccess]) ∧
    ((rpc 0).accepted = false → (rpc 1).accepted = true →
      Client.ReportCommandResult rpc result
        = [.rpc 0 result, .logFailure 1, .sleep 2, .rpc 1 result, .logSuccess]) ∧
    ((rpc 0).accepted = false → (rpc 1).accepted = false → (rpc 2).accepted = true →
      Client.ReportCommandResult rpc result
        = [.rpc 0 result, .logFailure 1, .sleep 2, .rpc 1 result, .logFailure 2, .sleep 2,
           .rpc 2 result, .logSuccess]) ∧
    ((rpc 0).accepted = false → (rpc 1).accepted = false → (rpc 2).accepted = false →
      Client.ReportCommandResult rpc result
        = [.rpc 0 result, .logFailure 1, .sleep 2, .rpc 1 result, .logFailure 2, .sleep 2,
           .rpc 2 result, .logFailure 3, .sleep 2, .logGiveUp]) ∧
    attempts (Client.ReportCommandResult rpc result) ≤ 3 ∧
    1 ≤ attempts (Client.ReportCommandResult rpc result) ∧
    (pauses (Client.ReportCommandResult rpc result)
        = attempts (Client.ReportCommandResult rpc result) ∨
      pauses (Client.ReportCommandResult rpc result) + 1
        = attempts (Client.ReportCommandResult rpc result)) := by
  unfold Client.ReportCommandResult
  cases h0 : (rpc 0).accepted <;> cases h1 : (rpc 1).accepted <;> cases h2 : (rpc 2).accepted <;>
    simp [Client.reportLoop, h0, h1, h2, attempts, pauses]

/-- Witness for C16: a server that accepts the third attempt, and one that never accepts. -/
theorem Client_ReportCommandResult_spec_witness :
    (rpcThirdAccepted 0).accepted = false ∧ (rpcThirdAccepted 1).accepted = false ∧
      (rpcThirdAccepted 2).accepted = true ∧
      Client.ReportCommandResult rpcThirdAccepted resultC1
        = [.rpc 0 resultC1, .logFailure 1, .sleep 2, .rpc 1 resultC1, .logFailure 2, .sleep 2,
           .rpc 2 resultC1, .logSuccess] ∧
      attempts (Client.ReportCommandResult rpcNeverAccepted resultC1) = 3 ∧
      pauses (Client.ReportCommandResult rpcNeverAccepted resultC1) = 3 :=
  ⟨by decide, by decide, by decide,
    (Client_ReportCommandResult_spec rpcThirdAccepted resultC1).2.2.1 (by decide) (by decide)
      (by decide),
    by decide, by decide⟩

/-- Whatever the replies, the reporter sends the given result and no other, starts
with an attempt, and is accepted at most once. -/
theorem ReportCommandResult_sends (rpc : Nat → ReportReply) (result : CommandResult) :
    reportedResults (Client.ReportCommandResult rpc result) = [result] ∧
      (∃ rest, Client.ReportCommandResult rpc result = ReportEvent.rpc 0 result :: rest) ∧
      deliveries (Client.ReportCommandResult rpc result) ≤ 1 := by
  unfold Client.ReportCommandResult
  cases h0 : (rpc 0).accepted <;> cases h1 : (rpc 1).accepted <;> cases h2 : (rpc 2).accepted <;>
    simp [Client.reportLoop, h0, h1, h2, reportedResults, deliveries]

theorem ExecuteShellCommand_ids (env : ExecEnv) (cmd : Command) (result : CommandResult) :
    (ExecuteShellCommand env cmd result).CommandId = result.CommandId ∧
      (ExecuteShellCommand env cmd result).ClientId = result.ClientId := by
  unfold ExecuteShellCommand
  rcases env.shell cmd.Content cmd.TimeoutSeconds with ⟨output, err⟩
  cases err <;> exact ⟨rfl, rfl⟩

theorem ExecuteCollectInfoCommand_ids (env : ExecEnv) (cmd : Command) (result : CommandResult) :
    (ExecuteCollectInfoCommand env cmd result).CommandId = result.CommandId ∧
      (ExecuteCollectInfoCommand env cmd result).ClientId = result.ClientId := by
  unfold ExecuteCollectInfoCommand
  simp only
  split <;> exact ⟨rfl, rfl⟩

/-- The handlers of the dispatch table are those of the three known kinds. -/
theorem commandHandlers_cases (env : ExecEnv) (kind : String) :
    (kind = "shell" ∧ GoMap.get kind (commandHandlers env) = some (ExecuteShellCommand env)) ∨
      (kind = "collect_info" ∧
        GoMap.get kind (commandHandlers env) = some (ExecuteCollectInfoCommand env)) ∨
      (kind = "update" ∧ GoMap.get kind (commandHandlers env) = some ExecuteUpdateCommand) ∨
      (kind ≠ "shell" ∧ kind ≠ "collect_info" ∧ kind ≠ "update" ∧
        GoMap.get kind (commandHandlers env) = none) := by
  by_cases h1 : kind = "shell"
  · subst h1
    exact Or.inl ⟨rfl, by simp [commandHandlers, GoMap.get]⟩
  · by_cases h2 : kind = "collect_info"
    · subst h2
      exact Or.inr (Or.inl ⟨rfl, by simp [commandHandlers, GoMap.get]⟩)
    · by_cases h3 : kind = "update"
      · subst h3
        exact Or.inr (Or.inr (Or.inl ⟨rfl, by simp [commandHandlers, GoMap.get]⟩))
      · have e1 : ¬ "shell" = kind := fun e => h1 e.symm
        have e2 : ¬ "collect_info" = kind := fun e => h2 e.symm
        have e3 : ¬ "update" = kind := fun e => h3 e.symm
        exact Or.inr (Or.inr (Or.inr ⟨h1, h2, h3, by simp [commandHandlers, GoMap.get, e1, e2, e3]⟩))

theorem durationSub_nonneg {t u : Int} (h : u ≤ t) : 0 ≤ durationSub t u := by
  unfold durationSub
  split
  · norm_num
  · split
    · omega
    · omega

/-- C15: for a command whose kind is none of `shell`, `collect_info`, `update`,
`ExecuteCommand` calls no handler (its outcome does not depend on what the
handlers would do) and records and reports one result with `Success = false`,
empty `Output`, the non-empty `Error` text ending in the unknown kind, the
command's `CommandId` and the agent's `ClientId`. -/
theorem ExecuteCommand_unknown_kind (env : ExecEnv) (clock : ClockReadings)
    (rpc : Nat → ReportReply) (client : Client) (cmd : Command)
    (h1 : cmd.CommandType ≠ "shell") (h2 : cmd.CommandType ≠ "collect_info")
    (h3 : cmd.CommandType ≠ "update") :
    ∃ r, reportedResults (ExecuteCommand env clock rpc client cmd).events = [r] ∧
      (ExecuteCommand env clock rpc client cmd).events = Client.ReportCommandResult rpc r ∧
      GoMap.get cmd.CommandId (ExecuteCommand env clock rpc client cmd).client.cmdResults
        = some r ∧
      r.Success = false ∧ r.Output = "" ∧
      r.Error = "未知的命令类型: " ++ cmd.CommandType ∧ r.Error ≠ "" ∧
      r.CommandId = cmd.CommandId ∧ r.ClientId = client.clientID ∧
      ∀ env', ExecuteCommand env' clock rpc client cmd
        = ExecuteCommand env clock rpc client cmd := by
  have hnone : ∀ e : ExecEnv, GoMap.get cmd.CommandType (commandHandlers e) = none := by
    intro e
    rcases commandHandlers_cases e cmd.CommandType with h | h | h | h
    · exact absurd h.1 h1
    · exact absurd h.1 h2
    · exact absurd h.1 h3
    · exact h.2.2.2
  refine ⟨_, (ReportCommandResult_sends rpc _).1, rfl, ?_, ?_, ?_, ?_, ?_, ?_, ?_, ?_⟩
  · simp [ExecuteCommand, GoMap.get_set_self]
  · simp [hnone env]
  · simp [hnone env]
  · simp [hnone env]
  · simp only [hnone env]
    intro he
    have hl := congrArg String.length he
    rw [String.length_append] at hl
    have h9 : ("未知的命令类型: " : String).length = 9 := by decide
    rw [h9] at hl
    simp at hl
  · simp [hnone env]
  · simp [hnone env]
  · intro env'
    simp [ExecuteCommand, hnone env, hnone env']

/-- Witness for C15: the kind `reboot`. -/
theorem ExecuteCommand_unknown_kind_witness :
    commandReboot.CommandType ≠ "shell" ∧ commandReboot.CommandType ≠ "collect_info" ∧
      commandReboot.CommandType ≠ "update" ∧
      ∃ r, reportedResults
          (ExecuteCommand sampleEnv sampleClock rpcThirdAccepted agentA1 commandReboot).events
          = [r] ∧
        r.Success = false ∧ r.Output = "" ∧ r.Error = "未知的命令类型: " ++ "reboot" ∧
        r.CommandId = "C7" ∧ r.ClientId = "A1" := by
  refine ⟨by decide, by decide, by decide, ?_⟩
  obtain ⟨r, h1, _, _, h3, h4, h5, _, h7, h8, _⟩ :=
    ExecuteCommand_unknown_kind sampleEnv sampleClock rpcThirdAccepted agentA1 commandReboot
      (by decide) (by decide) (by decide)
  exact ⟨r, h1, h3, h4, h5, h7, h8⟩

/-- C17: for every command, whatever its kind and timeout, one call of
`ExecuteCommand` records one result under the command id, leaving the other
recorded results, and hands that same result to `Client.ReportCommandResult`,
whose attempts (at least one) all send it and no other, and which is accepted
at most once; the result carries the command id; when the clock does not go
back between the start and the reading of `time.Since`, its `ExecutionTimeMs`
is not negative, and when it does not go back between the start and the final
`time.Now`, its `CompletedAt` is not before the second in which execution
started. -/
theorem ExecuteCommand_one_result (env : ExecEnv) (clock : ClockReadings)
    (rpc : Nat → ReportReply) (client : Client) (cmd : Command) :
    ∃ r, GoMap.get cmd.CommandId (ExecuteCommand env clock rpc client cmd).client.cmdResults
        = some r ∧
      (∀ c, c ≠ cmd.CommandId →
        GoMap.get c (ExecuteCommand env clock rpc client cmd).client.cmdResults
          = GoMap.get c client.cmdResults) ∧
      (ExecuteCommand env clock rpc client cmd).events = Client.ReportCommandResult rpc r ∧
      reportedResults (ExecuteCommand env clock rpc client cmd).events = [r] ∧
      (∃ rest, (ExecuteCommand env clock rpc client cmd).events
        = ReportEvent.rpc 0 r :: rest) ∧
      deliveries (ExecuteCommand env clock rpc client cmd).events ≤ 1 ∧
      r.CommandId = cmd.CommandId ∧ r.ClientId = client.clientID ∧
      (clock.start ≤ clock.since → 0 ≤ r.ExecutionTimeMs) ∧
      (clock.start ≤ clock.completed → unixSeconds clock.start ≤ r.CompletedAt) := by
  refine ⟨_, ?_, ?_, rfl, (ReportCommandResult_sends rpc _).1,
    (ReportCommandResult_sends rpc _).2.1, (ReportCommandResult_sends rpc _).2.2, ?_, ?_, ?_, ?_⟩
  · simp [ExecuteCommand, GoMap.get_set_self]
  · intro c hc
    simp [ExecuteCommand, GoMap.get_set_ne hc]
  · rcases commandHandlers_cases env cmd.CommandType with h | h | h | h
    · simp [h.2, (ExecuteShellCommand_ids env cmd _).1]
    · simp [h.2, (ExecuteCollectInfoCommand_ids env cmd _).1]
    · simp [h.2, ExecuteUpdateCommand]
    · simp [h.2.2.2]
  · rcases commandHandlers_cases env cmd.CommandType with h | h | h | h
    · simp [h.2, (ExecuteShellCommand_ids env cmd _).2]
    · simp [h.2, (ExecuteCollectInfoCommand_ids env cmd _).2]
    · simp [h.2, ExecuteUpdateCommand]
    · simp [h.2.2.2]
  · intro hsince
    simp only [durationMilliseconds]
    exact Int.tdiv_nonneg (durationSub_nonneg hsince) (by norm_num)
  · intro hcompleted
    simp only [unixSeconds]
    exact Int.ediv_le_ediv (by norm_num) hcompleted

/-- Witness for C17: a shell command with a zero timeout, whose handler runs and
fails, reported to a server that accepts the third attempt. -/
theorem ExecuteCommand_one_result_witness :
    sampleClock.start ≤ sampleClock.since ∧ sampleClock.start ≤ sampleClock.completed ∧
      (ExecuteCommand timeoutEnv sampleClock rpcThirdAccepted agentA1 commandNoTime).events
        = [.rpc 0 resultNoTime, .logFailure 1, .sleep 2, .rpc 1 resultNoTime, .logFailure 2,
           .sleep 2, .rpc 2 resultNoTime, .logSuccess] ∧
      ∃ r, GoMap.get "C8"
          (ExecuteCommand timeoutEnv sampleClock rpcThirdAccepted agentA1 commandNoTime).client.cmdResults
          = some r ∧
        reportedResults
          (ExecuteCommand timeoutEnv sampleClock rpcThirdAccepted agentA1 commandNoTime).events
          = [r] ∧
        0 ≤ r.ExecutionTimeMs := by
  refine ⟨by decide, by decide, by decide, ?_⟩
  obtain ⟨r, h1, _, _, h4, _, _, _, _, h9, _⟩ :=
    ExecuteCommand_one_result timeoutEnv sampleClock rpcThirdAccepted agentA1 commandNoTime
  exact ⟨r, h1, h4, h9 (by decide)⟩

end GoMonitor
